import Mathlib

/-!
# SIEMAnalyzer: the analysis pipeline of `src/SIEMAnalyzer.jsx`

A shallow embedding of `parseApacheLog`, `detectAnomalies`, `detectAttackPatterns`,
`analyzeTimeSeries` and the data part of `analyzeData`, followed by the properties
established about them.

Conventions of the embedding
* A JavaScript string is a `String`; the functions below work on its characters.
* A number read by `parseInt`, or a sum of such numbers, is a `JSNumber`: NaN, an
  infinity, or an integer that is a double; results are rounded as doubles are.  A
  counter incremented by one is a natural number or NaN (`none`); it stays far below
  `2 ^ 53`, where doubles are exact.
* A plain object used as a dictionary (`const o = {}`) is the list of its own
  properties in creation order, together with what `{}` inherits from
  `Object.prototype`; `Object.entries` lists canonical array indices first.
* A `forEach` over an array is a left fold; a thrown exception is `none`.
-/

set_option autoImplicit false

namespace SIEM

/-! ## Strings -/

/-- `s.includes(p)` on character lists: `p` occurs in `s` as a contiguous block. -/
def includesChars : List Char → List Char → Bool
  | [], p => p.isEmpty
  | c :: cs, p => p.isPrefixOf (c :: cs) || includesChars cs p

/-- `s.includes(p)`. -/
def includes (s p : String) : Bool := includesChars s.data p.data

/-- The lower-case form of one character, as far as ASCII is concerned: the capitals `A` to
`Z`, and the two other characters whose lower-case form contains an ASCII letter, U+212A
(to `k`) and U+0130 (to `i` followed by U+0307).  `String.prototype.toLowerCase` maps every
other capital to a non-ASCII letter; it is left unchanged here, which makes no difference to
a search for an ASCII pattern. -/
def lowerChars (c : Char) : List Char :=
  if 65 ≤ c.toNat ∧ c.toNat ≤ 90 then [Char.ofNat (c.toNat + 32)]
  else if c.toNat = 0x212A then ['k']
  else if c.toNat = 0x0130 then ['i', Char.ofNat 0x0307]
  else [c]

/-- Lower-casing of a list of characters. -/
def lowerAll : List Char → List Char
  | [] => []
  | c :: cs => lowerChars c ++ lowerAll cs

/-- `s.toLowerCase()`. -/
def toLowerCase (s : String) : String := String.mk (lowerAll s.data)

/-- The characters matched by the regular-expression class `\s` (and removed by
`String.prototype.trim`). -/
def isWhiteSpace (c : Char) : Bool :=
  c.toNat ∈ [0x20, 0x09, 0x0A, 0x0B, 0x0C, 0x0D, 0xA0, 0x1680, 0x2028, 0x2029, 0x202F,
    0x205F, 0x3000, 0xFEFF] || (0x2000 ≤ c.toNat && c.toNat ≤ 0x200A)

/-- The class `\S`. -/
def isNonSpace (c : Char) : Bool := !isWhiteSpace c

/-- The class `\d`: the code points U+0030 to U+0039. -/
def isDigit (c : Char) : Bool := decide (48 ≤ c.toNat) && decide (c.toNat ≤ 57)

/-- Value of a decimal digit. -/
def digitValue (c : Char) : Nat := c.toNat - 48

/-- Value of a string of decimal digits. -/
def decimalValue (cs : List Char) : Nat := cs.foldl (fun a c => 10 * a + digitValue c) 0

/-! ## Numbers -/

/-- The values taken by the numbers that `parseInt` returns and by their sums: NaN, the two
infinities, and the doubles that are integers (negative zero is identified with zero). -/
inductive JSNumber
  | nan
  | posInf
  | negInf
  | int (i : Int)
  deriving DecidableEq, Repr

/-- The number of binary digits of `m`, counted up to `fuel`. -/
def bitLength : Nat → Nat → Nat
  | 0, _ => 0
  | fuel + 1, m => if m = 0 then 0 else bitLength fuel (m / 2) + 1

/-- The double nearest to the natural number `m`: `m` itself up to `2 ^ 53`; above, `m`
rounded to 53 significant binary digits, a tie going to the even significand; `none` when
the result would reach `2 ^ 1024`, which is past the largest double. -/
def roundNat (m : Nat) : Option Nat :=
  if m ≤ 9007199254740992 then some m
  else
    let e := bitLength 1100 m - 53
    let q := m / 2 ^ e
    let r := m % 2 ^ e
    let up := decide (2 ^ (e - 1) < r) || (decide (r = 2 ^ (e - 1)) && decide (q % 2 = 1))
    let v := (if up then q + 1 else q) * 2 ^ e
    if bitLength 1100 v ≤ 1024 then some v else none

/-- The Number value of the integer `i`: the nearest double, or an infinity. -/
def toNumber (i : Int) : JSNumber :=
  match roundNat i.natAbs with
  | some v => JSNumber.int (if i < 0 then -(v : Int) else (v : Int))
  | none => if i < 0 then JSNumber.negInf else JSNumber.posInf

/-- The sum `a + b` of two numbers: NaN is absorbing, opposite infinities give NaN, and the
sum of two integers is rounded to a double. -/
def jsAdd (a b : JSNumber) : JSNumber :=
  match a, b with
  | JSNumber.nan, _ => JSNumber.nan
  | _, JSNumber.nan => JSNumber.nan
  | JSNumber.posInf, JSNumber.negInf => JSNumber.nan
  | JSNumber.negInf, JSNumber.posInf => JSNumber.nan
  | JSNumber.posInf, _ => JSNumber.posInf
  | _, JSNumber.posInf => JSNumber.posInf
  | JSNumber.negInf, _ => JSNumber.negInf
  | _, JSNumber.negInf => JSNumber.negInf
  | JSNumber.int x, JSNumber.int y => toNumber (x + y)

/-! ## Plain objects used as dictionaries -/

/-- What the object literal `{}` answers for a key it does not own. -/
inductive Inherited
  /-- Nothing: the lookup gives `undefined`. -/
  | nothing
  /-- A writable function-valued property of `Object.prototype`. -/
  | method
  /-- The accessor `__proto__`: reads give `Object.prototype`, writes of a
  primitive are ignored. -/
  | protoAccessor
  deriving DecidableEq, Repr

/-- How a key behaves as a property name. -/
class PropertyKey (κ : Type) where
  /-- The key seen as a canonical array index (an integer below `2 ^ 32 - 1` written
  in decimal without leading zeros), if it is one. -/
  arrayIndex : κ → Option Nat
  /-- What `{}` inherits under that name. -/
  inherited : κ → Inherited

/-- The function-valued properties of `Object.prototype`. -/
def objectPrototypeMethods : List String :=
  ["constructor", "__defineGetter__", "__defineSetter__", "hasOwnProperty",
   "__lookupGetter__", "__lookupSetter__", "isPrototypeOf", "propertyIsEnumerable",
   "toString", "valueOf", "toLocaleString"]

/-- Canonical array index denoted by a string. -/
def stringArrayIndex (k : String) : Option Nat :=
  match k.data with
  | [] => none
  | ['0'] => some 0
  | '0' :: _ => none
  | cs => if cs.all isDigit && decide (decimalValue cs < 4294967295)
          then some (decimalValue cs) else none

/-- What `{}` inherits under a string key. -/
def stringInherited (k : String) : Inherited :=
  if k = "__proto__" then Inherited.protoAccessor
  else if k ∈ objectPrototypeMethods then Inherited.method
  else Inherited.nothing

instance : PropertyKey String where
  arrayIndex := stringArrayIndex
  inherited := stringInherited

/-- Numbers used as keys are converted to their text: a non-negative integer below
`2 ^ 32 - 1` is an array index, and no number's text is the name of a property of
`Object.prototype`. -/
instance : PropertyKey JSNumber where
  arrayIndex := fun
    | JSNumber.int (Int.ofNat n) => if n < 4294967295 then some n else none
    | _ => none
  inherited := fun _ => Inherited.nothing

section Objects

variable {κ α : Type} [DecidableEq κ]

/-- The own property `k` of `o`, if any. -/
def own? (o : List (κ × α)) (k : κ) : Option α :=
  (o.find? (fun e => decide (e.1 = k))).map Prod.snd

/-- The assignment `o[k] = v` when it reaches the object itself: overwrite in place, or
create the property after the existing ones. -/
def setOwn (o : List (κ × α)) (k : κ) (v : α) : List (κ × α) :=
  if o.any (fun e => decide (e.1 = k)) then o.map (fun e => if e.1 = k then (k, v) else e)
  else o ++ [(k, v)]

/-- Index of an entry whose key is an array index (0 for the others, which are never
compared). -/
def entryIndex [PropertyKey κ] (e : κ × α) : Nat := (PropertyKey.arrayIndex e.1).getD 0

/-- The result of `Object.entries(o)`: array-index keys in ascending numeric order, then the
other keys in creation order. -/
def entries [PropertyKey κ] (o : List (κ × α)) : List (κ × α) :=
  (o.filter (fun e => (PropertyKey.arrayIndex e.1).isSome)).insertionSort
      (fun a b => entryIndex a ≤ entryIndex b)
    ++ o.filter (fun e => !(PropertyKey.arrayIndex e.1).isSome)

/-- `Array.prototype.sort(cmp)`: a stable sort, `a` staying before `b` when
`cmp(a, b) ≤ 0`.  ECMAScript fixes the result only for a consistent comparator; for an
inconsistent one this is one of the permitted outcomes. -/
def jsSort {β : Type} (cmp : β → β → Int) (l : List β) : List β :=
  l.insertionSort (fun a b => cmp a b ≤ 0)

end Objects

/-! ## parseApacheLog -/

/-- Value of a hexadecimal digit. -/
def hexValue? (c : Char) : Option Nat :=
  if isDigit c then some (c.toNat - 48)
  else if 'a' ≤ c ∧ c ≤ 'f' then some (c.toNat - 87)
  else if 'A' ≤ c ∧ c ≤ 'F' then some (c.toNat - 55)
  else none

/-- Value of a string of hexadecimal digits. -/
def hexadecimalValue (cs : List Char) : Nat :=
  cs.foldl (fun a c => 16 * a + (hexValue? c).getD 0) 0

/-- The digits `parseInt` reads: the longest run of digits of the radix, NaN when it is
empty.  A leading `0x` or `0X` selects radix 16. -/
def parseMagnitude : List Char → Option Nat
  | '0' :: 'x' :: r | '0' :: 'X' :: r =>
      if (r.takeWhile (fun c => (hexValue? c).isSome)).isEmpty then none
      else some (hexadecimalValue (r.takeWhile (fun c => (hexValue? c).isSome)))
  | r =>
      if (r.takeWhile isDigit).isEmpty then none
      else some (decimalValue (r.takeWhile isDigit))

/-- The Number value of a sign and the digits read, NaN when no digit was read. -/
def signedNumber (negative : Bool) : Option Nat → JSNumber
  | some n => toNumber (if negative then -(n : Int) else (n : Int))
  | none => JSNumber.nan

/-- `parseInt(s)` with no radix argument: leading white space is skipped, then an optional
sign, then the digits, and the result is the Number value of the integer read.  (ECMAScript
allows an implementation to read the decimal digits after the twentieth as zeros; all of
them are read here.) -/
def parseInt (s : String) : JSNumber :=
  match s.data.dropWhile isWhiteSpace with
  | '-' :: r => signedNumber true (parseMagnitude r)
  | '+' :: r => signedNumber false (parseMagnitude r)
  | r => signedNumber false (parseMagnitude r)

/-- The record built by `parseApacheLog`. -/
structure LogRecord where
  ip : String
  timestamp : String
  method : String
  path : String
  status : JSNumber
  size : JSNumber
  referer : String
  userAgent : String
  deriving DecidableEq, Repr

/-- A greedy `c+` where the class `c` cannot match what follows it in the pattern: the
longest run, which must be non-empty. -/
def token (p : Char → Bool) (cs : List Char) : Option (List Char × List Char) :=
  if (cs.takeWhile p).isEmpty then none else some (cs.takeWhile p, cs.dropWhile p)

/-- A literal piece of the pattern. -/
def expect (lit cs : List Char) : Option (List Char) :=
  if lit.isPrefixOf cs then some (cs.drop lit.length) else none

/-- The piece `^(\S+) \S+ \S+ \[`: the address and the rest of the line. -/
def matchAddress (cs : List Char) : Option (List Char × List Char) :=
  (token isNonSpace cs).bind fun ip =>
  (expect [' '] ip.2).bind fun r =>
  (token isNonSpace r).bind fun ident =>
  (expect [' '] ident.2).bind fun r =>
  (token isNonSpace r).bind fun authuser =>
  (expect [' ', '['] authuser.2).bind fun r => some (ip.1, r)

/-- The piece `([^\]]+)\] "`. -/
def matchTimestamp (cs : List Char) : Option (List Char × List Char) :=
  (token (fun c => c != ']') cs).bind fun timestamp =>
  (expect [']', ' ', '"'] timestamp.2).bind fun r => some (timestamp.1, r)

/-- The piece `(\S+) ` (method, path and size are each followed by a space). -/
def matchWord (cs : List Char) : Option (List Char × List Char) :=
  (token isNonSpace cs).bind fun w =>
  (expect [' '] w.2).bind fun r => some (w.1, r)

/-- The piece `\S+" `: a run of at least two non-space characters, the last one a quote. -/
def matchProtocol (cs : List Char) : Option (List Char) :=
  (token isNonSpace cs).bind fun protocol =>
  if protocol.1.length < 2 || protocol.1.getLast? != some '"' then none
  else expect [' '] protocol.2

/-- The piece `(\d+) `. -/
def matchStatus (cs : List Char) : Option (List Char × List Char) :=
  (token isDigit cs).bind fun status =>
  (expect [' '] status.2).bind fun r => some (status.1, r)

/-- The piece `"([^"]*)"`. -/
def matchQuoted (cs : List Char) : Option (List Char × List Char) :=
  (expect ['"'] cs).bind fun r =>
  (expect ['"'] (r.dropWhile (fun c => c != '"'))).bind fun r2 =>
  some (r.takeWhile (fun c => c != '"'), r2)

/-- The record `parseApacheLog` makes of the groups of a match. -/
def mkRecord (ip timestamp method path status size referer userAgent : List Char) :
    LogRecord where
  ip := String.mk ip
  timestamp := String.mk timestamp
  method := String.mk method
  path := String.mk path
  status := parseInt (String.mk status)
  size := if String.mk size = "-" then JSNumber.int 0 else parseInt (String.mk size)
  referer := String.mk referer
  userAgent := String.mk userAgent

/-- The match of
`^(\S+) \S+ \S+ \[([^\]]+)\] "(\S+) (\S+) \S+" (\d+) (\S+) "([^"]*)" "([^"]*)"`
against `line`, and the record made of its groups; `none` is `null`.  Every repeated
class is followed by a character outside the class, so each group is the longest run. -/
def parseApacheLog (line : String) : Option LogRecord :=
  (matchAddress line.data).bind fun ip =>
  (matchTimestamp ip.2).bind fun timestamp =>
  (matchWord timestamp.2).bind fun method =>
  (matchWord method.2).bind fun path =>
  (matchProtocol path.2).bind fun r =>
  (matchStatus r).bind fun status =>
  (matchWord status.2).bind fun size =>
  (matchQuoted size.2).bind fun referer =>
  (expect [' '] referer.2).bind fun r =>
  (matchQuoted r).bind fun userAgent =>
  some (mkRecord ip.1 timestamp.1 method.1 path.1 status.1 size.1 referer.1 userAgent.1)

/-! ## Counters kept in plain objects -/

section Counters

variable {κ : Type} [DecidableEq κ] [PropertyKey κ]

/-- The statements `if (!o[k]) o[k] = 0; o[k]++` on a counter object; a NaN counter is
`none`.  An own counter that is 0 or NaN is falsy and restarts from 0.  A missing key is
`undefined`, unless `{}` inherits the name: an inherited function is truthy, so nothing is
reset and `o[k]++` stores NaN as an own property; for `__proto__` the setter ignores the
number and nothing is stored. -/
def bumpGuarded (o : List (κ × Option Nat)) (k : κ) : List (κ × Option Nat) :=
  match own? o k with
  | some (some (n + 1)) => setOwn o k (some (n + 2))
  | some _ => setOwn o k (some 1)
  | none =>
    match PropertyKey.inherited k with
    | Inherited.nothing => setOwn o k (some 1)
    | Inherited.method => setOwn o k none
    | Inherited.protoAccessor => o

/-- A value stored by `o[k] = (o[k] || 0) + 1`: a number, or the text obtained by
appending to an inherited function. -/
inductive CountVal
  | num (n : Nat)
  | text
  deriving DecidableEq, Repr

/-- The statement `o[k] = (o[k] || 0) + 1`.  On a missing key that `{}` inherits, the
left operand is a function (or `Object.prototype`) and `+` concatenates text; the text
becomes an own property, except for `__proto__` whose setter ignores it. -/
def bump (o : List (κ × CountVal)) (k : κ) : List (κ × CountVal) :=
  match own? o k with
  | some (CountVal.num n) => setOwn o k (CountVal.num (n + 1))
  | some CountVal.text => setOwn o k CountVal.text
  | none =>
    match PropertyKey.inherited k with
    | Inherited.nothing => setOwn o k (CountVal.num 1)
    | Inherited.method => setOwn o k CountVal.text
    | Inherited.protoAccessor => o

/-- The comparator `(a, b) => b[1] - a[1]`; a difference involving text is NaN, which
`sort` treats as 0. -/
def byCountDesc (a b : κ × CountVal) : Int :=
  match a.2, b.2 with
  | CountVal.num x, CountVal.num y => (y : Int) - x
  | _, _ => 0

/-- The chain `Object.entries(counts).sort((a, b) => b[1] - a[1]).slice(0, 10)`. -/
def top10 (counts : List (κ × CountVal)) : List (κ × CountVal) :=
  (jsSort byCountDesc (entries counts)).take 10

end Counters

/-! ## detectAnomalies -/

/-- The per-address statistics object; the two `Set`s are lists without repetition in
insertion order, and each `Date` of `timestamps` is kept as the text it is made from. -/
structure IpStats where
  requests : Nat
  distinctPaths : List String
  failures : Nat
  totalSize : JSNumber
  methods : List String
  timestamps : List String
  deriving DecidableEq, Repr

/-- `Set.prototype.add`. -/
def setAdd (s : List String) (x : String) : List String := if x ∈ s then s else s ++ [x]

/-- The test `log.status >= 400`; it is false on NaN. -/
def statusFailed (status : JSNumber) : Bool :=
  match status with
  | JSNumber.int n => decide (400 ≤ n)
  | JSNumber.posInf => true
  | JSNumber.negInf => false
  | JSNumber.nan => false

/-- The object literal a new address starts from. -/
def newStats : IpStats :=
  { requests := 0, distinctPaths := [], failures := 0, totalSize := JSNumber.int 0,
    methods := [],
    timestamps := [] }

/-- The six updates made for one record. -/
def updateStats (stats : IpStats) (log : LogRecord) : IpStats :=
  { requests := stats.requests + 1
    distinctPaths := setAdd stats.distinctPaths log.path
    failures := if statusFailed log.status then stats.failures + 1 else stats.failures
    totalSize := jsAdd stats.totalSize log.size
    methods := setAdd stats.methods log.method
    timestamps := stats.timestamps ++ [log.timestamp] }

/-- The body of the first loop of `detectAnomalies`.  When `ipStats[log.ip]` is an inherited
value it is truthy, no statistics object is created, and `stats.distinctPaths.add` throws a
TypeError (`none`). -/
def recordLog (ipStats : List (String × IpStats)) (log : LogRecord) :
    Option (List (String × IpStats)) :=
  match own? ipStats log.ip with
  | some stats => some (setOwn ipStats log.ip (updateStats stats log))
  | none =>
    match PropertyKey.inherited log.ip with
    | Inherited.nothing => some (setOwn ipStats log.ip (updateStats newStats log))
    | _ => none

/-- The object `ipStats` after the first loop. -/
def buildIpStats (parsedLogs : List LogRecord) : Option (List (String × IpStats)) :=
  parsedLogs.foldlM recordLog []

/-- The quotient `stats.failures / stats.requests`.  It is compared with 0.5 only; for counts
below `2 ^ 53` the rounded quotient exceeds 0.5 exactly when the exact one does. -/
def failRate (stats : IpStats) : ℚ := (stats.failures : ℚ) / (stats.requests : ℚ)

/-- The four rules in sequence, threading `score` and `reasons`. -/
def scoreStats (stats : IpStats) : Nat × List String :=
  let s0 : Nat × List String := (0, [])
  let s1 := if stats.requests > 100 then (s0.1 + 30, s0.2 ++ ["High request volume"]) else s0
  let s2 := if stats.distinctPaths.length > 50
    then (s1.1 + 40, s1.2 ++ ["Path scanning detected"]) else s1
  let s3 := if failRate stats > 1 / 2 then (s2.1 + 20, s2.2 ++ ["High failure rate"]) else s2
  if stats.failures > 20 then (s3.1 + 10, s3.2 ++ ["Possible brute-force"]) else s3

/-- An element of `anomalies`.  `failRate` holds the number `failRate * 100` that the source
formats with `toFixed(1)`. -/
structure Anomaly where
  ip : String
  score : Nat
  requests : Nat
  distinctPaths : Nat
  failRate : ℚ
  reasons : String
  deriving DecidableEq, Repr

/-- The body of the second loop: the finding pushed for one entry of `ipStats`, if any. -/
def anomalyOf (e : String × IpStats) : Option Anomaly :=
  if (scoreStats e.2).1 > 30 then
    some { ip := e.1
           score := min (scoreStats e.2).1 100
           requests := e.2.requests
           distinctPaths := e.2.distinctPaths.length
           failRate := failRate e.2 * 100
           reasons := String.intercalate ", " (scoreStats e.2).2 }
  else none

/-- The function `detectAnomalies`: `ipStats` and the sorted `anomalies`. -/
def detectAnomalies (parsedLogs : List LogRecord) :
    Option (List (String × IpStats) × List Anomaly) :=
  (buildIpStats parsedLogs).map fun ipStats =>
    (ipStats,
     jsSort (fun a b => (b.score : Int) - (a.score : Int)) ((entries ipStats).filterMap anomalyOf))

/-! ## detectAttackPatterns -/

/-- An element of `patterns.bruteForce`. -/
structure BruteForce where
  ip : String
  attempts : Nat
  deriving DecidableEq, Repr

/-- An element of `patterns.webshell`. -/
structure WebshellHit where
  ip : String
  path : String
  timestamp : String
  deriving DecidableEq, Repr

/-- An element of `patterns.suspiciousUA`. -/
structure UAHit where
  ip : String
  ua : String
  path : String
  deriving DecidableEq, Repr

/-- The object `patterns`. -/
structure Patterns where
  bruteForce : List BruteForce
  webshell : List WebshellHit
  suspiciousUA : List UAHit
  deriving DecidableEq, Repr

/-- The constant `authPaths`. -/
def authPaths : List String := ["/login", "/wp-login.php", "/admin", "/auth"]

/-- The constant `shellPatterns`. -/
def shellPatterns : List String :=
  ["/shell", "/wp-admin", "/phpmyadmin", "/xmlrpc.php", "/etc/passwd"]

/-- The constant `suspiciousUAs`. -/
def suspiciousUAs : List String :=
  ["sqlmap", "nikto", "nmap", "masscan", "curl", "wget", "python"]

/-- What the loop of `detectAttackPatterns` has accumulated. -/
structure ScanState where
  ipAuthFailures : List (String × Option Nat)
  webshell : List WebshellHit
  suspiciousUA : List UAHit
  deriving DecidableEq, Repr

/-- The condition of the first `if` of the loop. -/
def isAuthFailure (log : LogRecord) : Bool :=
  authPaths.any (fun p => includes log.path p) && statusFailed log.status

/-- The condition of the second `if` of the loop. -/
def isShellProbe (log : LogRecord) : Bool :=
  shellPatterns.any (fun p => includes (toLowerCase log.path) p)

/-- The condition of the third `if` of the loop. -/
def isSuspiciousUA (log : LogRecord) : Bool :=
  suspiciousUAs.any (fun ua => includes (toLowerCase log.userAgent) ua)

/-- The body of the loop of `detectAttackPatterns`. -/
def scanLog (st : ScanState) (log : LogRecord) : ScanState :=
  { ipAuthFailures :=
      if isAuthFailure log then bumpGuarded st.ipAuthFailures log.ip else st.ipAuthFailures
    webshell :=
      if isShellProbe log
      then st.webshell ++ [{ ip := log.ip, path := log.path, timestamp := log.timestamp }]
      else st.webshell
    suspiciousUA :=
      if isSuspiciousUA log
      then st.suspiciousUA ++ [{ ip := log.ip, ua := log.userAgent, path := log.path }]
      else st.suspiciousUA }

/-- The body of the final loop: the entry pushed for a counter above 10 (`NaN > 10` is
false). -/
def bruteForceOf (e : String × Option Nat) : Option BruteForce :=
  match e.2 with
  | some count => if count > 10 then some { ip := e.1, attempts := count } else none
  | none => none

/-- The function `detectAttackPatterns`. -/
def detectAttackPatterns (parsedLogs : List LogRecord) : Patterns :=
  let st := parsedLogs.foldl scanLog { ipAuthFailures := [], webshell := [], suspiciousUA := [] }
  { bruteForce := (entries st.ipAuthFailures).filterMap bruteForceOf
    webshell := st.webshell
    suspiciousUA := st.suspiciousUA }

/-! ## analyzeTimeSeries -/

/-- The two platform services `analyzeTimeSeries` relies on. -/
structure DateEnv where
  /-- For a timestamp text `ts`, the value of
  `new Date(d.getFullYear(), d.getMonth(), d.getDate(), d.getHours(), d.getMinutes()).toISOString()`
  with `d = new Date(ts)`, split at its letter `T`: the date part (`YYYY-MM-DD`, or the
  expanded-year form) and the part after the `T` (`HH:mm:ss.sssZ`).  `none` when `ts` does not
  denote a date: `toISOString` then throws a RangeError.  How a non-ISO text is read is left to
  the platform by ECMAScript. -/
  minuteISO : String → Option (String × String)
  /-- The comparison `a.localeCompare(b)`. -/
  localeCompare : String → String → Int

/-- The key of `timeSlots` for a record. -/
def minuteKey (env : DateEnv) (log : LogRecord) : Option String :=
  (env.minuteISO log.timestamp).map fun p => String.mk (p.1.data ++ 'T' :: p.2.data)

/-- The call `time.slice(11, 16)`. -/
def sliceLabel (time : String) : String := String.mk ((time.data.drop 11).take 5)

/-- An element of `timeSeriesData`; a NaN count is `none`. -/
structure Bucket where
  time : String
  count : Option Nat
  deriving DecidableEq, Repr

/-- The object `timeSlots` after the loop; `none` when `toISOString` throws. -/
def buildTimeSlots (env : DateEnv) (parsedLogs : List LogRecord) :
    Option (List (String × Option Nat)) :=
  parsedLogs.foldlM (fun timeSlots log => (minuteKey env log).map (bumpGuarded timeSlots)) []

/-- The array `timeSeriesData`. -/
def timeSeriesOf (env : DateEnv) (timeSlots : List (String × Option Nat)) : List Bucket :=
  jsSort (fun a b => env.localeCompare a.time b.time)
    ((entries timeSlots).map fun e => { time := sliceLabel e.1, count := e.2 })

/-- The sum `timeSeriesData.reduce((sum, d) => sum + d.count, 0)`; NaN is absorbing. -/
def totalCount (timeSeriesData : List Bucket) : Option Nat :=
  timeSeriesData.foldl (fun sum d => sum.bind fun s => d.count.map fun c => s + c) (some 0)

/-- The number `avgRequests`: the sum divided by the number of buckets.  With no bucket the
division is `0 / 0`, which is NaN (`none`) and not an exception.  The quotient is kept
exact; rounding it to a double does not change which integer counts exceed three times it
as long as the counts stay below `2 ^ 50`. -/
def avgRequests (timeSeriesData : List Bucket) : Option ℚ :=
  match totalCount timeSeriesData, timeSeriesData.length with
  | some sum, n + 1 => some ((sum : ℚ) / ((n + 1 : Nat) : ℚ))
  | _, _ => none

/-- The test `d.count > avgRequests * 3`; a comparison with NaN is false. -/
def isBurst (avg : Option ℚ) (d : Bucket) : Bool :=
  match d.count, avg with
  | some c, some a => decide ((c : ℚ) > a * 3)
  | _, _ => false

/-- The function `analyzeTimeSeries`: `timeSeriesData` and `bursts`. -/
def analyzeTimeSeries (env : DateEnv) (parsedLogs : List LogRecord) :
    Option (List Bucket × List Bucket) :=
  (buildTimeSlots env parsedLogs).map fun timeSlots =>
    (timeSeriesOf env timeSlots,
     (timeSeriesOf env timeSlots).filter (isBurst (avgRequests (timeSeriesOf env timeSlots))))

/-! ## analyzeData -/

/-- The call `text.split('\n')` on the characters of `text`. -/
def splitLines : List Char → List (List Char)
  | [] => [[]]
  | c :: cs =>
    if c = '\n' then [] :: splitLines cs
    else
      match splitLines cs with
      | [] => [[c]]
      | l :: ls => (c :: l) :: ls

/-- The array `lines`: the pieces of `text` that `trim` does not empty. -/
def linesOf (text : String) : List String :=
  ((splitLines text.data).filter (fun l => l.any isNonSpace)).map String.mk

/-- The array `parsedLogs`. -/
def parsedLogsOf (text : String) : List LogRecord :=
  (linesOf text).filterMap parseApacheLog

/-- The array `validLogs`: a string is truthy when it is not empty. -/
def validLogsOf (text : String) : List LogRecord :=
  (parsedLogsOf text).filter (fun log => log.timestamp != "" && log.ip != "")

/-- The object `ipCounts`. -/
def ipCountsOf (validLogs : List LogRecord) : List (String × CountVal) :=
  validLogs.foldl (fun o log => bump o log.ip) []

/-- The object `pathCounts`. -/
def pathCountsOf (validLogs : List LogRecord) : List (String × CountVal) :=
  validLogs.foldl (fun o log => bump o log.path) []

/-- The object `statusCounts`. -/
def statusCountsOf (validLogs : List LogRecord) : List (JSNumber × CountVal) :=
  validLogs.foldl (fun o log => bump o log.status) []

/-- The field `summary` of the results. -/
structure Summary where
  totalRequests : Nat
  uniqueIPs : Nat
  timeRangeStart : Option String
  timeRangeEnd : Option String
  deriving DecidableEq, Repr

/-- The object passed to `setResults`. -/
structure Results where
  summary : Summary
  topIPs : List (String × CountVal)
  topPaths : List (String × CountVal)
  statusData : List (JSNumber × CountVal)
  anomalies : List Anomaly
  attackPatterns : Patterns
  timeSeriesData : List Bucket
  bursts : List Bucket
  deriving DecidableEq, Repr

/-- The results `analyzeData` computes from valid records; `none` when `detectAnomalies` or
`analyzeTimeSeries` throws, in which case the `catch` clause logs the error and no results
are set. -/
def analyzeLogs (env : DateEnv) (validLogs : List LogRecord) : Option Results :=
  (detectAnomalies validLogs).bind fun da =>
  (analyzeTimeSeries env validLogs).map fun ts =>
    { summary :=
        { totalRequests := validLogs.length
          uniqueIPs := (ipCountsOf validLogs).length
          timeRangeStart := validLogs.head?.map fun log => log.timestamp
          timeRangeEnd := validLogs.getLast?.map fun log => log.timestamp }
      topIPs := top10 (ipCountsOf validLogs)
      topPaths := top10 (pathCountsOf validLogs)
      statusData := entries (statusCountsOf validLogs)
      anomalies := da.2
      attackPatterns := detectAttackPatterns validLogs
      timeSeriesData := ts.1
      bursts := ts.2 }

/-- The data part of `analyzeData`, from the text of the uploaded file. -/
def analyzeData (env : DateEnv) (text : String) : Option Results :=
  analyzeLogs env (validLogsOf text)

/-! ## Reference notions used to state the properties -/

section Reference

variable {ι κ α : Type} [DecidableEq κ]

/-- The distinct elements of a list in order of first occurrence. -/
def firstSeen : List κ → List κ
  | [] => []
  | k :: ks => k :: (firstSeen ks).filter (fun x => decide (x ≠ k))

/-- The value accumulated for key `k` by an update `f` applied, in order, to the items of
`l` whose key is `k`; `none` when there is no such item. -/
def groupVal (f : Option α → ι → α) (key : ι → κ) (k : κ) (l : List ι) : Option α :=
  (l.filter (fun x => decide (key x = k))).foldl (fun acc x => some (f acc x)) none

/-- The dictionary with one entry per key of `l`, in first-seen order. -/
def grouped (f : Option α → ι → α) (key : ι → κ) (l : List ι) : List (κ × α) :=
  (firstSeen (l.map key)).filterMap fun k => (groupVal f key k l).map (Prod.mk k)

/-- The order in which `Object.entries` lists keys created in the order `ks`. -/
def entryOrder [PropertyKey κ] (ks : List κ) : List κ :=
  (ks.filter (fun k => (PropertyKey.arrayIndex k).isSome)).insertionSort
      (fun a b => (PropertyKey.arrayIndex a).getD 0 ≤ (PropertyKey.arrayIndex b).getD 0)
    ++ ks.filter (fun k => !(PropertyKey.arrayIndex k).isSome)

end Reference

/-- One row of the rule table of the scoring contract. -/
structure Rule where
  fires : IpStats → Bool
  points : Nat
  reason : String

/-- The rule table, in rule order: volume, scanning, failure ratio, brute-force signal. -/
def scoringRules : List Rule :=
  [ { fires := fun s => decide (s.requests > 100), points := 30, reason := "High request volume" },
    { fires := fun s => decide (s.distinctPaths.length > 50), points := 40,
      reason := "Path scanning detected" },
    { fires := fun s => decide ((s.failures : ℚ) / (s.requests : ℚ) > 1 / 2), points := 20,
      reason := "High failure rate" },
    { fires := fun s => decide (s.failures > 20), points := 10, reason := "Possible brute-force" } ]

/-- The rules of the table that fire on a profile. -/
def firedRules (stats : IpStats) : List Rule := scoringRules.filter fun r => r.fires stats

/-- The profile of the scoring example: 150 requests, 60 distinct paths, 80 failures. -/
def exampleProfile : IpStats :=
  { requests := 150
    distinctPaths := (List.range 60).map fun i => String.mk ('/' :: List.replicate i 'p')
    failures := 80
    totalSize := JSNumber.int 0
    methods := ["GET"]
    timestamps := [] }

/-- The update `if (!v) v = 0; v++` of a counter read as `v` (`none`: no own property). -/
def incGuarded : Option (Option Nat) → Option Nat
  | some (some (n + 1)) => some (n + 2)
  | _ => some 1

/-- The update `(v || 0) + 1` of a counter read as `v` (`none`: no own property). -/
def incCount : Option CountVal → CountVal
  | some (CountVal.num n) => CountVal.num (n + 1)
  | some CountVal.text => CountVal.text
  | none => CountVal.num 1

/-- The number of records from address `a` that are failed requests to an authentication
path. -/
def authFailures (logs : List LogRecord) (a : String) : Nat :=
  logs.countP fun r => decide (r.ip = a) && isAuthFailure r

/-- The probe entry of a record. -/
def webshellHitOf (r : LogRecord) : WebshellHit :=
  { ip := r.ip, path := r.path, timestamp := r.timestamp }

/-- A failed request for `path` from `ip`. -/
def failedRequest (ip path : String) : LogRecord :=
  { ip := ip, timestamp := "10/Oct/2023:13:55:36 +0000", method := "POST", path := path,
    status := JSNumber.int 401, size := JSNumber.int 0, referer := "-", userAgent := "Mozilla/5.0" }

/-- Fifteen failed requests to `/login` from one address. -/
def fifteenFailures : List LogRecord := List.replicate 15 (failedRequest "203.0.113.9" "/login")

/-- Nine failed requests to `/login` from one address. -/
def nineFailures : List LogRecord := List.replicate 9 (failedRequest "203.0.113.9" "/login")

/-- Eleven failed requests to `/login` whose address token is `constructor`. -/
def constructorFailures : List LogRecord := List.replicate 11 (failedRequest "constructor" "/login")

/-- A request for `path` answered with `status`. -/
def request (ip path : String) (status : Int) : LogRecord :=
  { ip := ip, timestamp := "10/Oct/2023:13:55:36 +0000", method := "GET", path := path,
    status := JSNumber.int status, size := JSNumber.int 512, referer := "-", userAgent := "Mozilla/5.0" }

/-- Four requests, three of them probes. -/
def probeLogs : List LogRecord :=
  [request "198.51.100.7" "/etc/passwd" 200, request "198.51.100.8" "/blog/WP-Admin/setup" 404,
   request "198.51.100.7" "/index.html" 200, request "198.51.100.9" "/shell/phpmyadmin" 500]

/-- The counts of the buckets (a NaN count contributes nothing). -/
def bucketCounts (timeSeriesData : List Bucket) : List Nat :=
  timeSeriesData.filterMap fun d => d.count

/-- The arithmetic mean of the bucket counts: their sum divided by the number of buckets. -/
def meanCount (timeSeriesData : List Bucket) : ℚ :=
  ((bucketCounts timeSeriesData).sum : ℚ) / (timeSeriesData.length : ℚ)

/-- A bucket whose count is strictly greater than the threshold `t`. -/
def exceeds (t : ℚ) (d : Bucket) : Bool :=
  match d.count with
  | some c => decide (t < (c : ℚ))
  | none => false

/-- The bucket made of an entry of `timeSlots`. -/
def bucketOf (e : String × Option Nat) : Bucket := { time := sliceLabel e.1, count := e.2 }

/-- Lexicographic comparison of two texts by code point: what `localeCompare` gives on
labels made of digits and a colon at the same places. -/
def compareChars : List Char → List Char → Int
  | [], [] => 0
  | [], _ :: _ => -1
  | _ :: _, [] => 1
  | a :: as, b :: bs => if a < b then -1 else if b < a then 1 else compareChars as bs

/-- A platform whose clock is set to UTC, described on the timestamps
`YYYY-MM-DDTHH:MM:SSZ` (the only ones the examples use; any other text is taken not to be a
date): the minute key is the timestamp with seconds and milliseconds set to zero. -/
def utcEnv : DateEnv where
  minuteISO := fun ts =>
    if ts.length = 20 && (ts.data.drop 10).head? == some 'T' then
      some (String.mk (ts.data.take 10),
        String.mk (((ts.data.drop 11).take 5) ++ [':', '0', '0', '.', '0', '0', '0', 'Z']))
    else none
  localeCompare := fun a b => compareChars a.data b.data

/-- A successful request received at `timestamp`. -/
def requestAt (timestamp : String) : LogRecord :=
  { ip := "198.51.100.7", timestamp := timestamp, method := "GET", path := "/index.html",
    status := JSNumber.int 200, size := JSNumber.int 512, referer := "-", userAgent := "Mozilla/5.0" }

/-- Four requests: two in the same minute, one at the same clock time a day later, and one
earlier in the day. -/
def twoDayLogs : List LogRecord :=
  [requestAt "2023-10-10T13:55:36Z", requestAt "2023-10-11T13:55:01Z",
   requestAt "2023-10-10T13:55:59Z", requestAt "2023-10-10T09:00:00Z"]

/-- Thirteen requests: nine in one minute and one in each of four other minutes. -/
def burstLogs : List LogRecord :=
  List.replicate 9 (requestAt "2023-10-10T13:05:10Z") ++
  [requestAt "2023-10-10T13:01:00Z", requestAt "2023-10-10T13:02:00Z",
   requestAt "2023-10-10T13:03:00Z", requestAt "2023-10-10T13:04:00Z"]

/-- Ten requests: five in one minute and one in each of five other minutes, so that the
largest count is exactly three times the mean. -/
def thresholdLogs : List LogRecord :=
  List.replicate 5 (requestAt "2023-10-10T13:06:10Z") ++
  [requestAt "2023-10-10T13:01:00Z", requestAt "2023-10-10T13:02:00Z",
   requestAt "2023-10-10T13:03:00Z", requestAt "2023-10-10T13:04:00Z",
   requestAt "2023-10-10T13:05:00Z"]

/-- The buckets of `burstLogs`. -/
def burstSeries : List Bucket :=
  [⟨"13:01", some 1⟩, ⟨"13:02", some 1⟩, ⟨"13:03", some 1⟩, ⟨"13:04", some 1⟩, ⟨"13:05", some 9⟩]

/-- The buckets of `thresholdLogs`. -/
def thresholdSeries : List Bucket :=
  [⟨"13:01", some 1⟩, ⟨"13:02", some 1⟩, ⟨"13:03", some 1⟩, ⟨"13:04", some 1⟩, ⟨"13:05", some 1⟩,
   ⟨"13:06", some 5⟩]

/-- The buckets of `twoDayLogs`. -/
def twoDaySeries : List Bucket := [⟨"09:00", some 1⟩, ⟨"13:55", some 2⟩, ⟨"13:55", some 1⟩]

/-- The update `detectAnomalies` applies to the statistics read as `v` (`none`: a new
address starts from the fresh object). -/
def updateFrom (v : Option IpStats) (log : LogRecord) : IpStats :=
  updateStats (v.getD newStats) log

/-- A request of address `ip` for the path made of a slash and `i` letters. -/
def scanRequest (ip : String) (i : Nat) : LogRecord :=
  { ip := ip, timestamp := "10/Oct/2023:13:55:36 +0000", method := "GET",
    path := String.mk ('/' :: List.replicate i 'p'), status := JSNumber.int 200,
    size := JSNumber.int 512,
    referer := "-", userAgent := "Mozilla/5.0" }

/-- Two scanners with 51 distinct paths each: first the address `10.0.0.5`, then the address
written as the decimal integer `3232235777`. -/
def tieLogs : List LogRecord :=
  (List.range 51).map (scanRequest "10.0.0.5") ++ (List.range 51).map (scanRequest "3232235777")

/-- The number of records whose key (address or path) is `k`. -/
def keyCount (key : LogRecord → String) (logs : List LogRecord) (k : String) : Nat :=
  logs.countP fun r => decide (key r = k)

/-- The properties of a top-10 list `top` computed for the keys `key` of `logs`: at most ten
entries; each carries the number of records of its key; no key twice; non-increasing counts;
no omitted key has more records than a listed one; and the listed keys of any one count are
the first ones, in `Object.entries` order, among all keys of that count. -/
def IsTop10 (key : LogRecord → String) (logs : List LogRecord)
    (top : List (String × CountVal)) : Prop :=
  top.length ≤ 10 ∧
  (∀ e ∈ top, e.2 = CountVal.num (keyCount key logs e.1)) ∧
  (top.map Prod.fst).Nodup ∧
  (top.map Prod.fst).Pairwise (fun a b => keyCount key logs b ≤ keyCount key logs a) ∧
  (∀ r ∈ logs, key r ∉ top.map Prod.fst →
    ∀ k ∈ top.map Prod.fst, keyCount key logs (key r) ≤ keyCount key logs k) ∧
  (∀ n, (top.map Prod.fst).filter (fun k => decide (keyCount key logs k = n)) <+:
    (entryOrder (firstSeen (logs.map key))).filter (fun k => decide (keyCount key logs k = n))) ∧
  ((∀ r ∈ logs, stringArrayIndex (key r) = none) →
    entryOrder (firstSeen (logs.map key)) = firstSeen (logs.map key))

/-- Two requests: first from `10.0.0.5`, then from the address written `3232235777`. -/
def twoAddressLogs : List LogRecord :=
  [request "10.0.0.5" "/index.html" 200, request "3232235777" "/about.html" 200]

/-- Thirteen requests from twelve addresses; only `10.0.0.10` sends two. -/
def twelveAddressLogs : List LogRecord :=
  (["10.0.0.1", "10.0.0.2", "10.0.0.3", "10.0.0.4", "10.0.0.5", "10.0.0.6", "10.0.0.7",
    "10.0.0.8", "10.0.0.9", "10.0.0.10", "10.0.0.11", "10.0.0.12", "10.0.0.10"].map
    fun ip => request ip "/index.html" 200)

/-- The numeric counts of a histogram (a text value contributes nothing). -/
def numericCounts {κ : Type} (data : List (κ × CountVal)) : List Nat :=
  data.filterMap fun e =>
    match e.2 with
    | CountVal.num n => some n
    | CountVal.text => none

/-- The results for an input without valid records. -/
def emptyResults : Results :=
  { summary := { totalRequests := 0, uniqueIPs := 0, timeRangeStart := none, timeRangeEnd := none }
    topIPs := []
    topPaths := []
    statusData := []
    anomalies := []
    attackPatterns := { bruteForce := [], webshell := [], suspiciousUA := [] }
    timeSeriesData := []
    bursts := [] }

/-- An upload of five lines: three valid entries, a blank line and a line that is not a log
entry. -/
def sampleText : String :=
  "198.51.100.7 - - [2023-10-10T13:55:36Z] \"GET /index.html HTTP/1.1\" 200 512 \"-\" \"Mozilla/5.0\"\n" ++
  "\n" ++
  "198.51.100.8 - - [2023-10-10T13:55:40Z] \"GET /missing HTTP/1.1\" 404 - \"-\" \"Mozilla/5.0\"\n" ++
  "not a log entry\n" ++
  "198.51.100.7 - - [2023-10-10T13:56:02Z] \"GET /about.html HTTP/1.1\" 200 734 \"-\" \"Mozilla/5.0\""

/-- A log entry whose size token is neither a number nor the placeholder. -/
def malformedSizeLine : String :=
  "198.51.100.7 - - [10/Oct/2023:13:55:36 +0000] \"GET /index.html HTTP/1.1\" 200 abc \"-\" \"Mozilla/5.0\""

/-- A log entry whose status token is not a number. -/
def malformedStatusLine : String :=
  "198.51.100.7 - - [10/Oct/2023:13:55:36 +0000] \"GET /index.html HTTP/1.1\" 2a0 512 \"-\" \"Mozilla/5.0\""

/-- The statistics object after the records `l` of one address. -/
def statsOf (l : List LogRecord) : IpStats := l.foldl updateStats newStats

/-- The sum of the sizes of `l`, as `totalSize` accumulates it. -/
def sizeSum (l : List LogRecord) : JSNumber :=
  l.foldl (fun a r => jsAdd a r.size) (JSNumber.int 0)

/-- The invariant of one statistics object: at least one request, no more failures than
requests, between one distinct path and as many as requests, and a failure rate between 0
and 1. -/
def WellFormedStats (stats : IpStats) : Prop :=
  1 ≤ stats.requests ∧ stats.failures ≤ stats.requests ∧
  1 ≤ stats.distinctPaths.length ∧ stats.distinctPaths.length ≤ stats.requests ∧
  0 ≤ failRate stats ∧ failRate stats ≤ 1

/-- Three requests of one address (two of them failed) and one of another. -/
def mixedLogs : List LogRecord :=
  [request "198.51.100.7" "/index.html" 200, request "198.51.100.7" "/login" 401,
   request "198.51.100.8" "/index.html" 200, request "198.51.100.7" "/login" 403]

/-- The raw score without the contribution of the failure-ratio rule. -/
def scoreWithoutRatio (stats : IpStats) : Nat :=
  (((firedRules stats).filter fun r => r.reason != "High failure rate").map fun r => r.points).sum

/-- A profile on which only the failure-ratio rule and no other rule fires. -/
def failingProfile : IpStats :=
  { requests := 20, distinctPaths := ["/login"], failures := 15, totalSize := JSNumber.int 0,
    methods := ["POST"], timestamps := [] }

/-- The minute keys of the records, in record order. -/
def minuteKeys (env : DateEnv) (logs : List LogRecord) : List String :=
  logs.filterMap (minuteKey env)

/-- Forty-nine requests over ten consecutive minutes: one in each of nine minutes and forty
in the minute 13:05. -/
def spikeLogs : List LogRecord :=
  [requestAt "2023-10-10T13:00:10Z", requestAt "2023-10-10T13:01:10Z",
   requestAt "2023-10-10T13:02:10Z", requestAt "2023-10-10T13:03:10Z",
   requestAt "2023-10-10T13:04:10Z"] ++
  List.replicate 40 (requestAt "2023-10-10T13:05:30Z") ++
  [requestAt "2023-10-10T13:06:10Z", requestAt "2023-10-10T13:07:10Z",
   requestAt "2023-10-10T13:08:10Z", requestAt "2023-10-10T13:09:10Z"]

/-- The buckets of `spikeLogs`. -/
def spikeSeries : List Bucket :=
  [⟨"13:00", some 1⟩, ⟨"13:01", some 1⟩, ⟨"13:02", some 1⟩, ⟨"13:03", some 1⟩, ⟨"13:04", some 1⟩,
   ⟨"13:05", some 40⟩, ⟨"13:06", some 1⟩, ⟨"13:07", some 1⟩, ⟨"13:08", some 1⟩, ⟨"13:09", some 1⟩]

/-- The union of two `Set`s kept in insertion order: the elements of `a`, then those of `b`
that are not in `a`. -/
def setUnion (a b : List String) : List String := a ++ b.filter fun x => decide (x ∉ a)

/-- The field-wise merge of two statistics objects: counts and sizes added, sets united,
timestamps concatenated. -/
def mergeStats (p q : IpStats) : IpStats :=
  { requests := p.requests + q.requests
    distinctPaths := setUnion p.distinctPaths q.distinctPaths
    failures := p.failures + q.failures
    totalSize := jsAdd p.totalSize q.totalSize
    methods := setUnion p.methods q.methods
    timestamps := p.timestamps ++ q.timestamps }

/-- The merge of two profile maps: the addresses of `m1` in their order, each merged with its
profile in `m2` when there is one, then the addresses found in `m2` only. -/
def mergeMaps (m1 m2 : List (String × IpStats)) : List (String × IpStats) :=
  (m1.map fun e =>
    (e.1, match own? m2 e.1 with
          | some q => mergeStats e.2 q
          | none => e.2)) ++
  m2.filter fun e => (own? m1 e.1).isNone

/-- Two statistics objects that agree, `totalSize` aside, up to the order inside their sets
and lists. -/
def SameUpToOrder (p q : IpStats) : Prop :=
  p.requests = q.requests ∧ p.failures = q.failures ∧
  p.distinctPaths.Perm q.distinctPaths ∧ p.methods.Perm q.methods ∧
  p.timestamps.Perm q.timestamps

/-- A statistics object with its `totalSize` left out of the comparison. -/
def forgetSize (p : IpStats) : IpStats := { p with totalSize := JSNumber.int 0 }

/-- A profile map with every `totalSize` left out of the comparison. -/
def forgetSizes (m : List (String × IpStats)) : List (String × IpStats) :=
  m.map fun e => (e.1, forgetSize e.2)

/-- The size of a record when it is a non-negative integer (0 otherwise). -/
def sizeNat (r : LogRecord) : Nat :=
  match r.size with
  | JSNumber.int (Int.ofNat n) => n
  | _ => 0

/-- Records whose sizes are non-negative integers adding up to at most `2 ^ 53`, so that no
addition of `totalSize` is rounded. -/
def ExactSizes (l : List LogRecord) : Prop :=
  (∀ r ∈ l, r.size = JSNumber.int (sizeNat r)) ∧ (l.map sizeNat).sum ≤ 9007199254740992

/-- A request of the address `198.51.100.7` with response size `size`. -/
def sized (size : Int) : LogRecord :=
  { ip := "198.51.100.7", timestamp := "2023-10-10T13:55:36Z", method := "GET",
    path := "/download", status := JSNumber.int 200, size := JSNumber.int size,
    referer := "-", userAgent := "Mozilla/5.0" }

/-- One request of an address at 13:55. -/
def earlyLogs : List LogRecord := [requestAt "2023-10-10T13:55:36Z"]

/-- One request of the same address at 13:56. -/
def lateLogs : List LogRecord := [requestAt "2023-10-10T13:56:02Z"]

/-- One download of `2 ^ 53` bytes. -/
def largeDownload : List LogRecord := [sized 9007199254740992]

/-- Two downloads of one byte, of the same address. -/
def smallDownloads : List LogRecord := [sized 1, sized 1]

/-! # Properties -/

/-! ## Scoring -/

theorem scoreStats_eq_firedRules (stats : IpStats) :
    (scoreStats stats).1 = ((firedRules stats).map fun r => r.points).sum ∧
    (scoreStats stats).2 = (firedRules stats).map fun r => r.reason := by
  unfold scoreStats firedRules scoringRules failRate
  by_cases h1 : stats.requests > 100 <;> by_cases h2 : stats.distinctPaths.length > 50 <;>
    by_cases h3 : (2 : ℚ)⁻¹ < (stats.failures : ℚ) / (stats.requests : ℚ) <;>
    by_cases h4 : stats.failures > 20 <;>
    simp [List.filter, h1, h2, h3, h4]

/-- C1: for a profile with at least one request, the raw score is the sum of the points of
the rules that fire and the reasons are their texts in rule order (the failure-ratio rule
firing exactly when twice the failures exceed the requests); a finding is produced exactly
when the raw score exceeds 30, and it carries the address, the raw score capped at 100 and
the fired reasons joined by a comma. -/
theorem C1_scoring (ip : String) (stats : IpStats) (hreq : 1 ≤ stats.requests) :
    (scoreStats stats).1 = ((firedRules stats).map fun r => r.points).sum ∧
    (scoreStats stats).2 = ((firedRules stats).map fun r => r.reason) ∧
    ((failRate stats > 1 / 2) ↔ stats.requests < 2 * stats.failures) ∧
    ((anomalyOf (ip, stats)).isSome = true ↔ 30 < (scoreStats stats).1) ∧
    ∀ a, anomalyOf (ip, stats) = some a →
      a.ip = ip ∧ a.score = min (scoreStats stats).1 100 ∧
      a.reasons = String.intercalate ", " ((firedRules stats).map fun r => r.reason) := by
  obtain ⟨hs, hr⟩ := scoreStats_eq_firedRules stats
  refine ⟨hs, hr, ?_, ?_, ?_⟩
  · unfold failRate
    have hpos : (0 : ℚ) < (stats.requests : ℚ) := by exact_mod_cast hreq
    rw [gt_iff_lt, lt_div_iff₀ hpos]
    constructor
    · intro h
      have : ((stats.requests : ℚ)) < 2 * (stats.failures : ℚ) := by linarith
      exact_mod_cast this
    · intro h
      have : ((stats.requests : ℚ)) < 2 * (stats.failures : ℚ) := by exact_mod_cast h
      linarith
  · unfold anomalyOf
    by_cases h : (scoreStats stats).1 > 30 <;> simp [h]
  · intro a ha
    unfold anomalyOf at ha
    by_cases h : (scoreStats stats).1 > 30
    · simp only [h, if_true, Option.some.injEq] at ha
      subst ha
      simp [hr]
    · simp [h] at ha

/-- C1 at the profile with 150 requests, 60 distinct paths and 80 failures: all four rules
fire, the raw score is 100 and the emitted score is 100. -/
theorem C1_scoring_witness :
    1 ≤ exampleProfile.requests ∧
    ((scoreStats exampleProfile).1 = ((firedRules exampleProfile).map fun r => r.points).sum ∧
    (scoreStats exampleProfile).2 = ((firedRules exampleProfile).map fun r => r.reason) ∧
    ((failRate exampleProfile > 1 / 2) ↔ exampleProfile.requests < 2 * exampleProfile.failures) ∧
    ((anomalyOf ("10.0.0.1", exampleProfile)).isSome = true ↔ 30 < (scoreStats exampleProfile).1) ∧
    ∀ a, anomalyOf ("10.0.0.1", exampleProfile) = some a →
      a.ip = "10.0.0.1" ∧ a.score = min (scoreStats exampleProfile).1 100 ∧
      a.reasons = String.intercalate ", " ((firedRules exampleProfile).map fun r => r.reason)) ∧
    scoreStats exampleProfile = (100, ["High request volume", "Path scanning detected",
      "High failure rate", "Possible brute-force"]) ∧
    (anomalyOf ("10.0.0.1", exampleProfile)).map (fun a => (a.score, a.reasons)) =
      some (100,
        "High request volume, Path scanning detected, High failure rate, Possible brute-force") :=
  ⟨by decide, C1_scoring "10.0.0.1" exampleProfile (by decide), by decide!, by decide!⟩


/-! ## Dictionaries built by a loop -/

section Grouping

variable {ι κ α : Type} [DecidableEq κ]

theorem mem_firstSeen (k : κ) (l : List κ) : k ∈ firstSeen l ↔ k ∈ l := by
  induction l with
  | nil => simp [firstSeen]
  | cons a l ih =>
    simp only [firstSeen, List.mem_cons, List.mem_filter, ih, decide_eq_true_eq]
    by_cases h : k = a <;> simp [h]

theorem nodup_firstSeen (l : List κ) : (firstSeen l).Nodup := by
  induction l with
  | nil => simp [firstSeen]
  | cons a l ih =>
    simp only [firstSeen, List.nodup_cons, List.mem_filter, decide_eq_true_eq]
    exact ⟨fun h => h.2 rfl, ih.filter _⟩

theorem firstSeen_concat (l : List κ) (k : κ) :
    firstSeen (l ++ [k]) = if k ∈ l then firstSeen l else firstSeen l ++ [k] := by
  induction l with
  | nil => simp [firstSeen]
  | cons a l ih =>
    rw [List.cons_append]
    simp only [firstSeen]
    rw [ih]
    by_cases hk : k ∈ l
    · simp [hk]
    · by_cases hka : k = a
      · subst hka
        simp [hk, List.filter_append]
      · simp [hk, hka, List.filter_append]

theorem groupVal_concat (f : Option α → ι → α) (key : ι → κ) (k : κ) (l : List ι) (x : ι) :
    groupVal f key k (l ++ [x]) =
      if key x = k then some (f (groupVal f key k l) x) else groupVal f key k l := by
  unfold groupVal
  by_cases h : key x = k <;> simp [List.filter_append, List.filter_cons, h]

theorem groupVal_eq_none (f : Option α → ι → α) (key : ι → κ) (k : κ) (l : List ι) :
    groupVal f key k l = none ↔ k ∉ l.map key := by
  induction l using List.reverseRecOn with
  | nil => simp [groupVal]
  | append_singleton l x ih =>
    rw [groupVal_concat]
    by_cases h : key x = k
    · simp [h]
    · simp only [h, if_false, ih, List.map_append, List.mem_append, List.map_cons, List.map_nil,
        List.mem_singleton, not_or]
      constructor
      · intro hk
        exact ⟨hk, fun e => h e.symm⟩
      · intro hk
        exact hk.1

theorem own?_filterMap (g : κ → Option α) (ks : List κ) (k : κ) :
    own? (ks.filterMap fun a => (g a).map (Prod.mk a)) k = if k ∈ ks then g k else none := by
  induction ks with
  | nil => simp [own?]
  | cons a ks ih =>
    unfold own? at ih ⊢
    rw [List.filterMap_cons]
    cases hg : g a with
    | none =>
      simp only [Option.map_none', ih, List.mem_cons]
      by_cases hka : k = a
      · subst hka
        simp [hg]
      · simp [hka]
    | some v =>
      simp only [Option.map_some', List.find?_cons, List.mem_cons]
      by_cases hka : a = k
      · subst hka
        simp [hg]
      · have hka2 : ¬ k = a := fun e => hka e.symm
        simp only [hka, decide_False, ih, hka2, false_or]

omit [DecidableEq κ] in
theorem keys_filterMap (g : κ → Option α) (ks : List κ) (h : ∀ k ∈ ks, (g k).isSome = true) :
    (ks.filterMap fun a => (g a).map (Prod.mk a)).map Prod.fst = ks := by
  induction ks with
  | nil => simp
  | cons a ks ih =>
    have ha := h a (List.mem_cons_self _ _)
    obtain ⟨v, hv⟩ := Option.isSome_iff_exists.mp ha
    rw [List.filterMap_cons]
    simp only [hv, Option.map_some', List.map_cons]
    rw [ih fun k hk => h k (List.mem_cons_of_mem _ hk)]

theorem keys_grouped (f : Option α → ι → α) (key : ι → κ) (l : List ι) :
    (grouped f key l).map Prod.fst = firstSeen (l.map key) := by
  unfold grouped
  apply keys_filterMap
  intro k hk
  rw [mem_firstSeen] at hk
  cases h : groupVal f key k l with
  | none => exact absurd hk ((groupVal_eq_none f key k l).mp h)
  | some v => rfl

theorem own?_grouped (f : Option α → ι → α) (key : ι → κ) (l : List ι) (k : κ) :
    own? (grouped f key l) k = groupVal f key k l := by
  unfold grouped
  rw [own?_filterMap]
  by_cases h : k ∈ firstSeen (l.map key)
  · simp [h]
  · simp only [h, if_false]
    rw [mem_firstSeen] at h
    exact ((groupVal_eq_none f key k l).mpr h).symm

theorem any_key_iff (o : List (κ × α)) (k : κ) :
    o.any (fun e => decide (e.1 = k)) = true ↔ k ∈ o.map Prod.fst := by
  simp only [List.any_eq_true, decide_eq_true_eq, List.mem_map]

/-- One step of a loop that updates the entry of `key x` from its previous value. -/
theorem setOwn_grouped (f : Option α → ι → α) (key : ι → κ) (l : List ι) (x : ι) :
    setOwn (grouped f key l) (key x) (f (own? (grouped f key l) (key x)) x) =
      grouped f key (l ++ [x]) := by
  rw [own?_grouped]
  unfold setOwn
  by_cases hk : key x ∈ l.map key
  · have hany : (grouped f key l).any (fun e => decide (e.1 = key x)) = true := by
      rw [any_key_iff, keys_grouped, mem_firstSeen]
      exact hk
    rw [if_pos hany]
    unfold grouped
    rw [List.map_append, List.map_cons, List.map_nil, firstSeen_concat, if_pos hk,
      List.map_filterMap]
    apply List.filterMap_congr
    intro k _
    rw [groupVal_concat]
    by_cases hkk : key x = k
    · subst hkk
      cases hg : groupVal f key (key x) l with
      | none => exact absurd hk ((groupVal_eq_none f key _ l).mp hg)
      | some v => simp
    · cases hg : groupVal f key k l with
      | none => simp [hkk]
      | some v =>
        have : ¬ k = key x := fun e => hkk e.symm
        simp [hkk, this]
  · have hany : ¬ (grouped f key l).any (fun e => decide (e.1 = key x)) = true := by
      rw [any_key_iff, keys_grouped, mem_firstSeen]
      exact hk
    rw [if_neg hany]
    unfold grouped
    rw [List.map_append, List.map_cons, List.map_nil, firstSeen_concat, if_neg hk,
      List.filterMap_append]
    congr 1
    · apply List.filterMap_congr
      intro k hk2
      rw [mem_firstSeen] at hk2
      rw [groupVal_concat]
      have : ¬ key x = k := fun e => hk (e ▸ hk2)
      simp [this]
    · simp [groupVal_concat]

/-- A loop that updates, for each item, the entry of its key from the previous value builds
the dictionary of the accumulated values, in first-seen key order. -/
theorem foldl_setOwn_eq_grouped (f : Option α → ι → α) (key : ι → κ) (l : List ι) :
    l.foldl (fun o x => setOwn o (key x) (f (own? o (key x)) x)) [] = grouped f key l := by
  induction l using List.reverseRecOn with
  | nil => simp [grouped, firstSeen]
  | append_singleton l x ih =>
    rw [List.foldl_append, ih]
    simp only [List.foldl_cons, List.foldl_nil]
    exact setOwn_grouped f key l x

theorem nodup_keys_grouped (f : Option α → ι → α) (key : ι → κ) (l : List ι) :
    ((grouped f key l).map Prod.fst).Nodup := by
  rw [keys_grouped]
  exact nodup_firstSeen _

theorem mem_iff_own? (o : List (κ × α)) (hnd : (o.map Prod.fst).Nodup) (k : κ) (v : α) :
    (k, v) ∈ o ↔ own? o k = some v := by
  induction o with
  | nil => simp [own?]
  | cons e o ih =>
    obtain ⟨a, w⟩ := e
    simp only [List.map_cons, List.nodup_cons] at hnd
    unfold own? at ih ⊢
    simp only [List.mem_cons, Prod.mk.injEq, List.find?_cons]
    by_cases hak : a = k
    · subst hak
      simp only [decide_True, Option.map_some', Option.some.injEq, true_and]
      constructor
      · rintro (h | h)
        · exact h.symm
        · exact absurd (List.mem_map_of_mem Prod.fst h) hnd.1
      · intro h
        exact Or.inl h.symm
    · have hka : ¬ k = a := fun e => hak e.symm
      simp only [hak, decide_False, hka, false_and, false_or]
      exact ih hnd.2

theorem mem_grouped (f : Option α → ι → α) (key : ι → κ) (l : List ι) (k : κ) (v : α) :
    (k, v) ∈ grouped f key l ↔ groupVal f key k l = some v := by
  rw [mem_iff_own? _ (nodup_keys_grouped f key l), own?_grouped]

end Grouping

/-! ## Counters -/

section CounterLemmas

variable {ι κ : Type} [DecidableEq κ] [PropertyKey κ]

theorem bumpGuarded_eq (o : List (κ × Option Nat)) (k : κ)
    (hk : PropertyKey.inherited k = Inherited.nothing) :
    bumpGuarded o k = setOwn o k (incGuarded (own? o k)) := by
  unfold bumpGuarded
  cases h : own? o k with
  | none => simp [hk, incGuarded]
  | some v =>
    cases v with
    | none => simp [incGuarded]
    | some n => cases n <;> simp [incGuarded]

theorem bump_eq (o : List (κ × CountVal)) (k : κ)
    (hk : PropertyKey.inherited k = Inherited.nothing) :
    bump o k = setOwn o k (incCount (own? o k)) := by
  unfold bump
  cases h : own? o k with
  | none => simp [hk, incCount]
  | some v => cases v <;> simp [incCount]

theorem foldl_bumpGuarded (key : ι → κ) (l : List ι)
    (h : ∀ x ∈ l, PropertyKey.inherited (key x) = Inherited.nothing) :
    l.foldl (fun o x => bumpGuarded o (key x)) [] =
      grouped (fun acc _ => incGuarded acc) key l := by
  rw [← foldl_setOwn_eq_grouped]
  apply List.foldl_ext
  intro o x hx
  exact bumpGuarded_eq o (key x) (h x hx)

theorem foldl_bump (key : ι → κ) (l : List ι)
    (h : ∀ x ∈ l, PropertyKey.inherited (key x) = Inherited.nothing) :
    l.foldl (fun o x => bump o (key x)) [] = grouped (fun acc _ => incCount acc) key l := by
  rw [← foldl_setOwn_eq_grouped]
  apply List.foldl_ext
  intro o x hx
  exact bump_eq o (key x) (h x hx)

omit [PropertyKey κ] in
theorem groupVal_incGuarded (key : ι → κ) (k : κ) (l : List ι) :
    groupVal (fun acc _ => incGuarded acc) key k l =
      if l.countP (fun x => decide (key x = k)) = 0 then none
      else some (some (l.countP fun x => decide (key x = k))) := by
  induction l using List.reverseRecOn with
  | nil => simp [groupVal]
  | append_singleton l x ih =>
    rw [groupVal_concat, ih, List.countP_append]
    by_cases hx : key x = k
    · simp only [hx, if_true, List.countP_cons, List.countP_nil, decide_True, zero_add]
      rcases Nat.eq_zero_or_pos (List.countP (fun x => decide (key x = k)) l) with h0 | h0
      · simp [h0, incGuarded]
      · obtain ⟨m, hm⟩ := Nat.exists_eq_succ_of_ne_zero (Nat.pos_iff_ne_zero.mp h0)
        simp [hm, incGuarded]
    · simp [hx]

omit [PropertyKey κ] in
theorem groupVal_incCount (key : ι → κ) (k : κ) (l : List ι) :
    groupVal (fun acc _ => incCount acc) key k l =
      if l.countP (fun x => decide (key x = k)) = 0 then none
      else some (CountVal.num (l.countP fun x => decide (key x = k))) := by
  induction l using List.reverseRecOn with
  | nil => simp [groupVal]
  | append_singleton l x ih =>
    rw [groupVal_concat, ih, List.countP_append]
    by_cases hx : key x = k
    · simp only [hx, if_true, List.countP_cons, List.countP_nil, decide_True, zero_add]
      rcases Nat.eq_zero_or_pos (List.countP (fun x => decide (key x = k)) l) with h0 | h0
      · simp [h0, incCount]
      · have : ¬ List.countP (fun x => decide (key x = k)) l = 0 := Nat.pos_iff_ne_zero.mp h0
        simp [this, incCount]
    · simp [hx]

omit [DecidableEq κ] in
theorem entries_perm {α : Type} (o : List (κ × α)) : (entries o).Perm o := by
  unfold entries
  refine List.Perm.trans (List.Perm.append_right _ (List.perm_insertionSort _ _)) ?_
  exact List.filter_append_perm _ o

omit [DecidableEq κ] in
theorem mem_entries {α : Type} (o : List (κ × α)) (e : κ × α) : e ∈ entries o ↔ e ∈ o :=
  (entries_perm o).mem_iff

end CounterLemmas

/-! ## detectAttackPatterns -/

theorem scan_ipAuthFailures (logs : List LogRecord) (st : ScanState) :
    (logs.foldl scanLog st).ipAuthFailures =
      (logs.filter isAuthFailure).foldl (fun o r => bumpGuarded o r.ip) st.ipAuthFailures := by
  induction logs generalizing st with
  | nil => rfl
  | cons r logs ih =>
    rw [List.foldl_cons, ih]
    by_cases h : isAuthFailure r = true
    · simp [List.filter_cons, h, scanLog]
    · simp [List.filter_cons, h, scanLog]

theorem scan_webshell (logs : List LogRecord) (st : ScanState) :
    (logs.foldl scanLog st).webshell =
      st.webshell ++ (logs.filter isShellProbe).map webshellHitOf := by
  induction logs generalizing st with
  | nil => simp
  | cons r logs ih =>
    rw [List.foldl_cons, ih]
    by_cases h : isShellProbe r = true
    · simp [List.filter_cons, h, scanLog, webshellHitOf]
    · simp [List.filter_cons, h, scanLog]

theorem bruteForce_eq (logs : List LogRecord)
    (h : ∀ r ∈ logs, isAuthFailure r = true → stringInherited r.ip = Inherited.nothing) :
    (detectAttackPatterns logs).bruteForce =
      (entries (grouped (fun acc _ => incGuarded acc) (fun r : LogRecord => r.ip)
        (logs.filter isAuthFailure))).filterMap bruteForceOf := by
  unfold detectAttackPatterns
  simp only [scan_ipAuthFailures]
  rw [foldl_bumpGuarded]
  intro r hr
  rw [List.mem_filter] at hr
  exact h r hr.1 hr.2

theorem countP_filter_authFailure (logs : List LogRecord) (a : String) :
    (logs.filter isAuthFailure).countP (fun r => decide (r.ip = a)) = authFailures logs a := by
  unfold authFailures
  rw [List.countP_filter]

/-- When no failed authentication request comes from an address that is the name of a
property inherited from `Object.prototype`, `bruteForce` holds the entry `(a, n)` exactly
when `n` is the number of failed authentication requests from `a` and `n > 10`; and no address
has two entries. -/
theorem bruteForce_spec (logs : List LogRecord)
    (h : ∀ r ∈ logs, isAuthFailure r = true → stringInherited r.ip = Inherited.nothing) :
    (∀ a n, ({ ip := a, attempts := n } : BruteForce) ∈ (detectAttackPatterns logs).bruteForce ↔
      (n = authFailures logs a ∧ 10 < n)) ∧
    (∀ a, (∃ e ∈ (detectAttackPatterns logs).bruteForce, e.ip = a) ↔ 10 < authFailures logs a) ∧
    ((detectAttackPatterns logs).bruteForce.map fun e => e.ip).Nodup := by
  have hmem : ∀ a n, ({ ip := a, attempts := n } : BruteForce) ∈
      (detectAttackPatterns logs).bruteForce ↔ (n = authFailures logs a ∧ 10 < n) := by
    intro a n
    rw [bruteForce_eq logs h, List.mem_filterMap]
    constructor
    · rintro ⟨⟨k, v⟩, hmem, hbf⟩
      rw [mem_entries, mem_grouped, groupVal_incGuarded, countP_filter_authFailure] at hmem
      unfold bruteForceOf at hbf
      by_cases h0 : authFailures logs k = 0
      · simp [h0] at hmem
      · simp only [h0, if_false, Option.some.injEq] at hmem
        subst hmem
        simp only at hbf
        by_cases h10 : authFailures logs k > 10
        · simp only [h10, if_true, Option.some.injEq, BruteForce.mk.injEq] at hbf
          obtain ⟨rfl, rfl⟩ := hbf
          exact ⟨rfl, h10⟩
        · simp [h10] at hbf
    · rintro ⟨rfl, h10⟩
      refine ⟨(a, some (authFailures logs a)), ?_, ?_⟩
      · rw [mem_entries, mem_grouped, groupVal_incGuarded, countP_filter_authFailure]
        have : ¬ authFailures logs a = 0 := by omega
        simp [this]
      · simp [bruteForceOf, h10]
  refine ⟨hmem, ?_, ?_⟩
  · intro a
    constructor
    · rintro ⟨⟨ip, n⟩, he, rfl⟩
      obtain ⟨rfl, h10⟩ := (hmem ip n).mp he
      exact h10
    · intro h10
      exact ⟨{ ip := a, attempts := authFailures logs a }, (hmem a _).mpr ⟨rfl, h10⟩, rfl⟩
  · rw [bruteForce_eq logs h]
    have hsub : (((entries (grouped (fun acc _ => incGuarded acc) (fun r : LogRecord => r.ip)
        (logs.filter isAuthFailure))).filterMap bruteForceOf).map fun e => e.ip).Sublist
        ((entries (grouped (fun acc _ => incGuarded acc) (fun r : LogRecord => r.ip)
        (logs.filter isAuthFailure))).map Prod.fst) := by
      generalize entries (grouped (fun acc _ => incGuarded acc) (fun r : LogRecord => r.ip)
        (logs.filter isAuthFailure)) = es
      induction es with
      | nil => simp
      | cons e es ih =>
        rw [List.filterMap_cons]
        cases hb : bruteForceOf e with
        | none => exact List.Sublist.cons _ ih
        | some b =>
          have : b.ip = e.1 := by
            unfold bruteForceOf at hb
            split at hb
            · split at hb
              · simp only [Option.some.injEq] at hb
                rw [← hb]
              · simp at hb
            · simp at hb
          simp only [List.map_cons, this]
          exact List.Sublist.cons₂ _ ih
    refine hsub.nodup ?_
    exact ((entries_perm _).map Prod.fst).nodup_iff.mpr (nodup_keys_grouped _ _ _)

/-! ## Probes -/

theorem includesChars_iff (s p : List Char) : includesChars s p = true ↔ p <:+: s := by
  induction s with
  | nil => simp [includesChars]
  | cons c cs ih =>
    simp only [includesChars, Bool.or_eq_true, ih, List.infix_cons_iff, List.isPrefixOf_iff_prefix]

theorem isShellProbe_iff (r : LogRecord) :
    isShellProbe r = true ↔ ∃ p ∈ shellPatterns, p.data <:+: (toLowerCase r.path).data := by
  simp only [isShellProbe, List.any_eq_true, includes, includesChars_iff]

theorem isShellProbe_status (r : LogRecord) (st : JSNumber) :
    isShellProbe { r with status := st } = isShellProbe r := rfl

theorem lowerAll_append (a b : List Char) : lowerAll (a ++ b) = lowerAll a ++ lowerAll b := by
  induction a with
  | nil => rfl
  | cons c a ih =>
    rw [List.cons_append, lowerAll, lowerAll, ih, List.append_assoc]

theorem isShellProbe_of_wpAdmin (r : LogRecord) (h : "/wp-admin".data <:+: r.path.data) :
    isShellProbe r = true := by
  rw [isShellProbe_iff]
  refine ⟨"/wp-admin", by decide, ?_⟩
  obtain ⟨a, b, hab⟩ := h
  refine ⟨lowerAll a, lowerAll b, ?_⟩
  have hp : lowerAll "/wp-admin".data = "/wp-admin".data := by decide
  simp only [toLowerCase, ← hab, lowerAll_append, hp]

/-- C3: `webshell` has one entry per record whose lower-cased path contains a probe signature,
in record order and for those records only; it does not depend on status codes; and a record
whose path is `/etc/passwd` or contains `/wp-admin` yields exactly one entry. -/
theorem C3_webshell (logs : List LogRecord) :
    (detectAttackPatterns logs).webshell = (logs.filter isShellProbe).map webshellHitOf ∧
    (∀ r, isShellProbe r = true ↔
      ∃ p ∈ shellPatterns, p.data <:+: (toLowerCase r.path).data) ∧
    (∀ g : LogRecord → JSNumber,
      (detectAttackPatterns (logs.map fun r => { r with status := g r })).webshell =
        (detectAttackPatterns logs).webshell) ∧
    (∀ r : LogRecord, (r.path = "/etc/passwd" ∨ "/wp-admin".data <:+: r.path.data) →
      (detectAttackPatterns [r]).webshell = [webshellHitOf r]) := by
  have heq : ∀ l : List LogRecord,
      (detectAttackPatterns l).webshell = (l.filter isShellProbe).map webshellHitOf := by
    intro l
    simp [detectAttackPatterns, scan_webshell]
  refine ⟨heq logs, isShellProbe_iff, ?_, ?_⟩
  · intro g
    rw [heq, heq, List.filter_map, List.map_map]
    rfl
  · intro r hr
    rw [heq]
    have hprobe : isShellProbe r = true := by
      rcases hr with hr | hr
      · rw [isShellProbe_iff]
        exact ⟨"/etc/passwd", by decide, by rw [hr]; exact ⟨[], [], by decide⟩⟩
      · exact isShellProbe_of_wpAdmin r hr
    simp [List.filter_cons, hprobe]

/-- C3 on four requests: the three probes are reported once each, in order, whatever their
status. -/
theorem C3_webshell_witness :
    ((detectAttackPatterns probeLogs).webshell =
        (probeLogs.filter isShellProbe).map webshellHitOf ∧
    (∀ r, isShellProbe r = true ↔
      ∃ p ∈ shellPatterns, p.data <:+: (toLowerCase r.path).data) ∧
    (∀ g : LogRecord → JSNumber,
      (detectAttackPatterns (probeLogs.map fun r => { r with status := g r })).webshell =
        (detectAttackPatterns probeLogs).webshell) ∧
    (∀ r : LogRecord, (r.path = "/etc/passwd" ∨ "/wp-admin".data <:+: r.path.data) →
      (detectAttackPatterns [r]).webshell = [webshellHitOf r])) ∧
    (detectAttackPatterns probeLogs).webshell =
      [webshellHitOf (request "198.51.100.7" "/etc/passwd" 200),
       webshellHitOf (request "198.51.100.8" "/blog/WP-Admin/setup" 404),
       webshellHitOf (request "198.51.100.9" "/shell/phpmyadmin" 500)] :=
  ⟨C3_webshell probeLogs, by decide⟩

/-! ## Counting loops in closed form -/

section ClosedForms

variable {ι κ σ : Type} [DecidableEq κ]

omit [DecidableEq κ] in
theorem foldlM_map_some (g : ι → Option κ) (h : σ → κ → σ) (l : List ι) (init : σ) :
    l.foldlM (fun o x => (g x).map (h o)) init =
      if l.all (fun x => (g x).isSome) = true then some ((l.filterMap g).foldl h init)
      else none := by
  induction l generalizing init with
  | nil => simp
  | cons x l ih =>
    rw [List.foldlM_cons]
    cases hg : g x with
    | none => simp [hg]
    | some k =>
      simp only [Option.map_some', ih, List.all_cons, hg, Option.isSome_some,
        Bool.true_and, List.filterMap_cons, List.foldl_cons]
      rfl

omit [DecidableEq κ] in
theorem filterMap_eq_map_of_some {α : Type} (g : κ → Option α) (v : κ → α) (ks : List κ)
    (h : ∀ k ∈ ks, g k = some (v k)) :
    (ks.filterMap fun k => (g k).map (Prod.mk k)) = ks.map fun k => (k, v k) := by
  induction ks with
  | nil => rfl
  | cons a ks ih =>
    rw [List.filterMap_cons, h a (List.mem_cons_self _ _)]
    simp only [Option.map_some', List.map_cons]
    rw [ih fun k hk => h k (List.mem_cons_of_mem _ hk)]

theorem countP_key_ne_zero (key : ι → κ) (l : List ι) (k : κ) (hk : k ∈ l.map key) :
    l.countP (fun x => decide (key x = k)) ≠ 0 := by
  obtain ⟨x, hx, rfl⟩ := List.mem_map.mp hk
  have : 0 < l.countP (fun y => decide (key y = key x)) :=
    List.countP_pos_iff.mpr ⟨x, hx, by simp⟩
  omega

theorem grouped_incGuarded (key : ι → κ) (l : List ι) :
    grouped (fun acc _ => incGuarded acc) key l =
      (firstSeen (l.map key)).map fun k => (k, some (l.countP fun x => decide (key x = k))) := by
  unfold grouped
  apply filterMap_eq_map_of_some
  intro k hk
  rw [mem_firstSeen] at hk
  rw [groupVal_incGuarded, if_neg (countP_key_ne_zero key l k hk)]

theorem grouped_incCount (key : ι → κ) (l : List ι) :
    grouped (fun acc _ => incCount acc) key l =
      (firstSeen (l.map key)).map fun k =>
        (k, CountVal.num (l.countP fun x => decide (key x = k))) := by
  unfold grouped
  apply filterMap_eq_map_of_some
  intro k hk
  rw [mem_firstSeen] at hk
  rw [groupVal_incCount, if_neg (countP_key_ne_zero key l k hk)]

theorem firstSeen_perm_dedup (l : List κ) : (firstSeen l).Perm l.dedup := by
  rw [List.perm_ext_iff_of_nodup (nodup_firstSeen l) (List.nodup_dedup l)]
  intro a
  rw [mem_firstSeen, List.mem_dedup]

/-- The counts of the distinct keys add up to the number of items. -/
theorem sum_countP_firstSeen (key : ι → κ) (l : List ι) :
    ((firstSeen (l.map key)).map fun k => l.countP fun x => decide (key x = k)).sum =
      l.length := by
  have hc : ∀ k, l.countP (fun x => decide (key x = k)) = (l.map key).count k := by
    intro k
    rw [List.count, List.countP_map]
    congr 1
  simp only [hc]
  rw [((firstSeen_perm_dedup (l.map key)).map _).sum_eq, List.sum_map_count_dedup_eq_length,
    List.length_map]

end ClosedForms

/-! ## analyzeTimeSeries -/

theorem stringInherited_of_mem_T (k : String) (hT : 'T' ∈ k.data) :
    stringInherited k = Inherited.nothing := by
  have h1 : k ≠ "__proto__" := by
    rintro rfl
    revert hT
    decide
  have h2 : k ∉ objectPrototypeMethods := by
    intro hm
    simp only [objectPrototypeMethods, List.mem_cons, List.mem_singleton, List.not_mem_nil,
      or_false] at hm
    rcases hm with rfl | rfl | rfl | rfl | rfl | rfl | rfl | rfl | rfl | rfl | rfl <;>
      (revert hT; decide)
  simp [stringInherited, h1, h2]

theorem minuteKey_nothing (env : DateEnv) (log : LogRecord) (k : String)
    (h : minuteKey env log = some k) : stringInherited k = Inherited.nothing := by
  unfold minuteKey at h
  cases hm : env.minuteISO log.timestamp with
  | none => simp [hm] at h
  | some p =>
    simp only [hm, Option.map_some', Option.some.injEq] at h
    subst h
    apply stringInherited_of_mem_T
    simp

theorem minuteKey_isSome (env : DateEnv) (log : LogRecord) :
    (minuteKey env log).isSome = (env.minuteISO log.timestamp).isSome := by
  unfold minuteKey
  cases env.minuteISO log.timestamp <;> rfl

theorem length_filterMap_of_all {ι κ : Type} (g : ι → Option κ) (l : List ι)
    (h : l.all (fun x => (g x).isSome) = true) : (l.filterMap g).length = l.length := by
  induction l with
  | nil => rfl
  | cons x l ih =>
    simp only [List.all_cons, Bool.and_eq_true] at h
    obtain ⟨v, hv⟩ := Option.isSome_iff_exists.mp h.1
    simp [List.filterMap_cons, hv, ih h.2]

theorem countP_eq_count {κ : Type} [DecidableEq κ] (l : List κ) (k : κ) :
    l.countP (fun x => decide (x = k)) = l.count k := by
  induction l with
  | nil => rfl
  | cons a l ih =>
    by_cases h : a = k
    · simp [h, ih]
    · rw [List.countP_cons_of_neg, ih, List.count_cons_of_ne (fun e => h e.symm)]
      simpa using h

theorem filterMap_count_bucketOf (c : String → Nat) (ks : List String) :
    ((ks.map fun k => (k, some (c k))).map bucketOf).filterMap (fun d => d.count) =
      ks.map c := by
  induction ks with
  | nil => rfl
  | cons k ks ih =>
    simp only [List.map_cons, List.filterMap_cons, bucketOf]
    rw [← ih]

theorem buildTimeSlots_eq (env : DateEnv) (logs : List LogRecord) :
    buildTimeSlots env logs =
      if logs.all (fun r => (minuteKey env r).isSome) = true then
        some ((firstSeen (logs.filterMap (minuteKey env))).map fun k =>
          (k, some ((logs.filterMap (minuteKey env)).count k)))
      else none := by
  unfold buildTimeSlots
  rw [foldlM_map_some]
  by_cases hall : logs.all (fun r => (minuteKey env r).isSome) = true
  · rw [if_pos hall, if_pos hall]
    congr 1
    have hk : ∀ k ∈ logs.filterMap (minuteKey env),
        PropertyKey.inherited ((fun k : String => k) k) = Inherited.nothing := by
      intro k hk
      obtain ⟨r, _, hr⟩ := List.mem_filterMap.mp hk
      exact minuteKey_nothing env r k hr
    have := foldl_bumpGuarded (fun k : String => k) (logs.filterMap (minuteKey env)) hk
    rw [grouped_incGuarded] at this
    simp only [List.map_id_fun', id_eq] at this
    rw [this]
    apply List.map_congr_left
    intro k _
    rw [countP_eq_count]
  · rw [if_neg hall, if_neg hall]

theorem timeSeriesOf_perm (env : DateEnv) (slots : List (String × Option Nat)) :
    (timeSeriesOf env slots).Perm (slots.map bucketOf) := by
  unfold timeSeriesOf jsSort
  exact (List.perm_insertionSort _ _).trans ((entries_perm slots).map _)

theorem totalCount_eq (l : List Bucket) (h : ∀ b ∈ l, ∃ n, b.count = some n) :
    totalCount l = some (bucketCounts l).sum := by
  unfold totalCount bucketCounts
  suffices hs : ∀ s : Nat,
      l.foldl (fun sum d => sum.bind fun s => d.count.map fun c => s + c) (some s) =
        some (s + (l.filterMap fun d => d.count).sum) by
    simpa using hs 0
  induction l with
  | nil => simp
  | cons b l ih =>
    intro s
    obtain ⟨n, hn⟩ := h b (List.mem_cons_self _ _)
    simp only [List.foldl_cons, Option.some_bind, hn, Option.map_some', List.filterMap_cons,
      List.sum_cons]
    rw [ih (fun b hb => h b (List.mem_cons_of_mem _ hb)) (s + n), Nat.add_assoc]

theorem avgRequests_eq_mean (l : List Bucket) (h : ∀ b ∈ l, ∃ n, b.count = some n)
    (hne : l ≠ []) : avgRequests l = some (meanCount l) := by
  unfold avgRequests meanCount
  rw [totalCount_eq l h]
  cases l with
  | nil => exact absurd rfl hne
  | cons b l => simp

theorem isBurst_some (a : ℚ) (d : Bucket) : isBurst (some a) d = exceeds (3 * a) d := by
  unfold isBurst exceeds
  cases d.count with
  | none => rfl
  | some c => simp [mul_comm]

/-- What `analyzeTimeSeries` returns, when it returns: the buckets are a rearrangement of one
bucket per distinct minute key carrying the number of records of that minute, and `bursts` is
the filter of the buckets by the threshold. -/
theorem analyzeTimeSeries_some (env : DateEnv) (logs : List LogRecord)
    (res : List Bucket × List Bucket) (h : analyzeTimeSeries env logs = some res) :
    (∀ b ∈ res.1, ∃ n : Nat, b.count = some n ∧ 1 ≤ n) ∧
    (bucketCounts res.1).sum = logs.length ∧
    (logs ≠ [] → res.1 ≠ []) ∧
    res.2 = res.1.filter (isBurst (avgRequests res.1)) := by
  unfold analyzeTimeSeries at h
  rw [buildTimeSlots_eq] at h
  by_cases hall : logs.all (fun r => (minuteKey env r).isSome) = true
  · rw [if_pos hall] at h
    simp only [Option.map_some', Option.some.injEq] at h
    subst h
    simp only
    have hperm := timeSeriesOf_perm env ((firstSeen (logs.filterMap (minuteKey env))).map fun k =>
          (k, some ((logs.filterMap (minuteKey env)).count k)))
    have hlen := length_filterMap_of_all (minuteKey env) logs hall
    refine ⟨?_, ?_, ?_, trivial⟩
    · intro b hb
      rw [hperm.mem_iff] at hb
      simp only [List.map_map, List.mem_map, Function.comp] at hb
      obtain ⟨k, hk, rfl⟩ := hb
      rw [mem_firstSeen] at hk
      exact ⟨_, rfl, List.count_pos_iff.mpr hk⟩
    · unfold bucketCounts
      rw [(hperm.filterMap _).sum_eq, filterMap_count_bucketOf]
      have := sum_countP_firstSeen (fun k : String => k) (logs.filterMap (minuteKey env))
      simp only [List.map_id_fun', id_eq, countP_eq_count] at this
      rw [← hlen, ← this]
    · intro hne hnil
      have hl := hperm.length_eq
      rw [hnil] at hl
      simp only [List.length_nil, List.length_map] at hl
      have hfs : firstSeen (logs.filterMap (minuteKey env)) = [] :=
        List.length_eq_zero.mp hl.symm
      have : logs.filterMap (minuteKey env) = [] := by
        apply List.eq_nil_iff_forall_not_mem.mpr
        intro k hk
        have := (mem_firstSeen k _).mpr hk
        rw [hfs] at this
        exact List.not_mem_nil _ this
      rw [this] at hlen
      exact hne (List.length_eq_zero.mp hlen.symm)
  · rw [if_neg hall] at h
    simp at h

theorem analyzeTimeSeries_isSome (env : DateEnv) (logs : List LogRecord) :
    (analyzeTimeSeries env logs).isSome = true ↔
      ∀ r ∈ logs, (env.minuteISO r.timestamp).isSome = true := by
  unfold analyzeTimeSeries
  rw [buildTimeSlots_eq]
  by_cases hall : logs.all (fun r => (minuteKey env r).isSome) = true
  · rw [if_pos hall]
    simp only [Option.map_some', Option.isSome_some, true_iff]
    intro r hr
    rw [← minuteKey_isSome]
    exact (List.all_eq_true.mp hall) r hr
  · rw [if_neg hall]
    simp only [Option.map_none', Option.isSome_none, Bool.false_eq_true, false_iff]
    intro h
    apply hall
    rw [List.all_eq_true]
    intro r hr
    rw [minuteKey_isSome]
    exact h r hr

/-- C4: on a non-empty record sequence, `bursts` is the sub-list of `timeSeriesData` of the
buckets whose count is strictly greater than three times the mean bucket count (equivalently
`3 * total < count * number of buckets`); a bucket whose count equals three times the mean is
not a burst. -/
theorem C4_bursts (env : DateEnv) (logs : List LogRecord) (res : List Bucket × List Bucket)
    (hne : logs ≠ []) (h : analyzeTimeSeries env logs = some res) :
    res.2 = res.1.filter (exceeds (3 * meanCount res.1)) ∧
    res.2.Sublist res.1 ∧
    (∀ b ∈ res.1, ∀ c : Nat, b.count = some c →
      (exceeds (3 * meanCount res.1) b = true ↔
        3 * (bucketCounts res.1).sum < c * res.1.length)) ∧
    (∀ b ∈ res.1, ∀ c : Nat, b.count = some c → (c : ℚ) = 3 * meanCount res.1 → b ∉ res.2) := by
  obtain ⟨hcounts, _, hnonempty, hb⟩ := analyzeTimeSeries_some env logs res h
  have hall : ∀ b ∈ res.1, ∃ n, b.count = some n := fun b hb =>
    let ⟨n, hn, _⟩ := hcounts b hb
    ⟨n, hn⟩
  have hfilter : res.2 = res.1.filter (exceeds (3 * meanCount res.1)) := by
    rw [hb, avgRequests_eq_mean res.1 hall (hnonempty hne)]
    apply List.filter_congr
    intro b _
    exact isBurst_some _ b
  refine ⟨hfilter, ?_, ?_, ?_⟩
  · rw [hfilter]
    exact List.filter_sublist _
  · intro b _ c hc
    have hlen : (0 : ℚ) < (res.1.length : ℚ) := by
      have : 0 < res.1.length := List.length_pos.mpr (hnonempty hne)
      exact_mod_cast this
    unfold exceeds meanCount
    simp only [hc, decide_eq_true_eq]
    rw [← mul_div_assoc, div_lt_iff₀ hlen]
    constructor
    · intro hlt
      exact_mod_cast hlt
    · intro hlt
      exact_mod_cast hlt
  · intro b _ c hc heq hmem
    rw [hfilter, List.mem_filter] at hmem
    have := hmem.2
    unfold exceeds at this
    simp only [hc, decide_eq_true_eq] at this
    rw [heq] at this
    exact lt_irrefl _ this

/-- C4 on thirteen requests (counts 1, 1, 1, 1, 9: the bucket of 9 is the only burst), and on
ten requests whose largest bucket holds exactly three times the mean (no burst). -/
theorem C4_bursts_witness :
    burstLogs ≠ [] ∧
    analyzeTimeSeries utcEnv burstLogs = some (burstSeries, [⟨"13:05", some 9⟩]) ∧
    ([⟨"13:05", some 9⟩] = burstSeries.filter (exceeds (3 * meanCount burstSeries))) ∧
    analyzeTimeSeries utcEnv thresholdLogs = some (thresholdSeries, []) ∧
    ((5 : ℚ) = 3 * meanCount thresholdSeries) :=
  ⟨by decide, by decide!,
   (C4_bursts utcEnv burstLogs (burstSeries, [⟨"13:05", some 9⟩]) (by decide) (by decide!)).1,
   by decide!, by decide!⟩

/-- C6: `analyzeTimeSeries` returns exactly when every timestamp denotes a date; every count
of `timeSeriesData` is then a positive integer and the counts add up to the number of records
(buckets are kept per full minute key, whatever their time-of-day label). -/
theorem C6_bucketCounts (env : DateEnv) (logs : List LogRecord) :
    ((analyzeTimeSeries env logs).isSome = true ↔
      ∀ r ∈ logs, (env.minuteISO r.timestamp).isSome = true) ∧
    ∀ res, analyzeTimeSeries env logs = some res →
      (∀ b ∈ res.1, ∃ n : Nat, b.count = some n ∧ 1 ≤ n) ∧
      (bucketCounts res.1).sum = logs.length ∧
      totalCount res.1 = some logs.length := by
  refine ⟨analyzeTimeSeries_isSome env logs, ?_⟩
  intro res h
  obtain ⟨hcounts, hsum, _, _⟩ := analyzeTimeSeries_some env logs res h
  refine ⟨hcounts, hsum, ?_⟩
  rw [totalCount_eq res.1 fun b hb => let ⟨n, hn, _⟩ := hcounts b hb; ⟨n, hn⟩, hsum]

/-- C6 on four requests of which two fall at 13:55 on one day and one at 13:55 the next day:
two buckets share the label `13:55`, and the counts 1, 2, 1 add up to 4. -/
theorem C6_bucketCounts_witness :
    analyzeTimeSeries utcEnv twoDayLogs = some (twoDaySeries, []) ∧
    ((∀ b ∈ twoDaySeries, ∃ n : Nat, b.count = some n ∧ 1 ≤ n) ∧
      (bucketCounts twoDaySeries).sum = twoDayLogs.length ∧
      totalCount twoDaySeries = some twoDayLogs.length) :=
  ⟨by decide!, (C6_bucketCounts utcEnv twoDayLogs).2 (twoDaySeries, []) (by decide!)⟩

/-! ## Stable sorting -/

section Sorting

variable {β : Type} (key : β → Nat) (r : β → β → Prop) [DecidableRel r]

theorem filter_orderedInsert (hr : ∀ a b, r a b ↔ key b ≤ key a) (s : Nat) (a : β)
    (l : List β) :
    (l.orderedInsert r a).filter (fun x => decide (key x = s)) =
      if key a = s then a :: l.filter (fun x => decide (key x = s))
      else l.filter (fun x => decide (key x = s)) := by
  induction l with
  | nil => by_cases h : key a = s <;> simp [h]
  | cons b l ih =>
    rw [List.orderedInsert]
    by_cases hab : r a b
    · rw [if_pos hab]
      by_cases h : key a = s <;> simp [List.filter_cons, h]
    · rw [if_neg hab, List.filter_cons, ih]
      have hlt : key a < key b := by
        rw [hr] at hab
        omega
      by_cases h : key a = s
      · have hb : ¬ key b = s := by omega
        simp [h, hb, List.filter_cons]
      · by_cases hb : key b = s <;> simp [h, hb, List.filter_cons]

/-- A stable sort keeps the items of equal key in their original order. -/
theorem filter_insertionSort (hr : ∀ a b, r a b ↔ key b ≤ key a) (s : Nat) (l : List β) :
    (l.insertionSort r).filter (fun x => decide (key x = s)) =
      l.filter (fun x => decide (key x = s)) := by
  induction l with
  | nil => rfl
  | cons a l ih =>
    rw [List.insertionSort, filter_orderedInsert key r hr, ih]
    by_cases h : key a = s <;> simp [List.filter_cons, h]

theorem pairwise_insertionSort (hr : ∀ a b, r a b ↔ key b ≤ key a) (l : List β) :
    (l.insertionSort r).Pairwise (fun a b => key b ≤ key a) := by
  haveI : IsTotal β r := ⟨fun a b => by rw [hr, hr]; exact le_total _ _⟩
  haveI : IsTrans β r := ⟨fun a b c => by rw [hr, hr, hr]; exact fun h1 h2 => le_trans h2 h1⟩
  exact (List.sorted_insertionSort r l).imp fun h => (hr _ _).mp h

end Sorting

/-! ## Object.entries -/

section EntryOrder

variable {κ α : Type} [PropertyKey κ]

theorem map_fst_entries (o : List (κ × α)) :
    (entries o).map Prod.fst = entryOrder (o.map Prod.fst) := by
  unfold entries entryOrder
  rw [List.map_append, List.filter_map, List.filter_map]
  congr 1
  exact List.map_insertionSort (fun a b : κ × α => entryIndex a ≤ entryIndex b)
    (fun a b : κ => (PropertyKey.arrayIndex a).getD 0 ≤ (PropertyKey.arrayIndex b).getD 0)
    Prod.fst _ (fun a _ b _ => Iff.rfl)

theorem entryOrder_perm (ks : List κ) : (entryOrder ks).Perm ks := by
  unfold entryOrder
  refine List.Perm.trans (List.Perm.append_right _ (List.perm_insertionSort _ _)) ?_
  exact List.filter_append_perm _ ks

theorem entryOrder_of_no_index (ks : List κ) (h : ∀ k ∈ ks, PropertyKey.arrayIndex k = none) :
    entryOrder ks = ks := by
  unfold entryOrder
  have h1 : ks.filter (fun k => (PropertyKey.arrayIndex k).isSome) = [] := by
    rw [List.filter_eq_nil_iff]
    intro k hk
    simp [h k hk]
  have h2 : ks.filter (fun k => !(PropertyKey.arrayIndex k).isSome) = ks := by
    rw [List.filter_eq_self]
    intro k hk
    simp [h k hk]
  rw [h1, h2]
  rfl

end EntryOrder

/-! ## detectAnomalies -/

theorem recordLog_eq (l : List LogRecord) (x : LogRecord)
    (hl : ∀ r ∈ l, stringInherited r.ip = Inherited.nothing) :
    recordLog (grouped updateFrom (fun r : LogRecord => r.ip) l) x =
      if stringInherited x.ip = Inherited.nothing then
        some (grouped updateFrom (fun r : LogRecord => r.ip) (l ++ [x]))
      else none := by
  rw [← setOwn_grouped]
  unfold recordLog
  rw [own?_grouped]
  cases hg : groupVal updateFrom (fun r : LogRecord => r.ip) x.ip l with
  | none =>
    have hx : PropertyKey.inherited x.ip = stringInherited x.ip := rfl
    simp only [hx]
    cases hi : stringInherited x.ip <;> simp [updateFrom]
  | some stats =>
    have hmem : x.ip ∈ l.map (fun r : LogRecord => r.ip) := by
      by_contra hc
      rw [(groupVal_eq_none updateFrom (fun r : LogRecord => r.ip) x.ip l).mpr hc] at hg
      exact Option.noConfusion hg
    obtain ⟨r, hr, hrx⟩ := List.mem_map.mp hmem
    have hxi : stringInherited x.ip = Inherited.nothing := by
      rw [← hrx]
      exact hl r hr
    simp [hxi, updateFrom]

theorem buildIpStats_eq (logs : List LogRecord) :
    buildIpStats logs =
      if ∀ r ∈ logs, stringInherited r.ip = Inherited.nothing then
        some (grouped updateFrom (fun r : LogRecord => r.ip) logs)
      else none := by
  unfold buildIpStats
  induction logs using List.reverseRecOn with
  | nil => simp [grouped, firstSeen]
  | append_singleton l x ih =>
    rw [List.foldlM_append, ih]
    by_cases hl : ∀ r ∈ l, stringInherited r.ip = Inherited.nothing
    · rw [if_pos hl]
      simp only [List.foldlM_cons, List.foldlM_nil, Option.bind_eq_bind, Option.some_bind,
        Option.pure_def, Option.bind_some]
      rw [recordLog_eq l x hl]
      by_cases hx : stringInherited x.ip = Inherited.nothing
      · have hall : ∀ r ∈ l ++ [x], stringInherited r.ip = Inherited.nothing := by
          intro r hr
          rcases List.mem_append.mp hr with h | h
          · exact hl r h
          · rw [List.mem_singleton.mp h]
            exact hx
        rw [if_pos hx, if_pos hall]
      · have hall : ¬ ∀ r ∈ l ++ [x], stringInherited r.ip = Inherited.nothing := by
          intro h
          exact hx (h x (by simp))
        rw [if_neg hx, if_neg hall]
    · have hall : ¬ ∀ r ∈ l ++ [x], stringInherited r.ip = Inherited.nothing := by
        intro h
        exact hl fun r hr => h r (List.mem_append_left _ hr)
      rw [if_neg hl, if_neg hall]
      rfl

theorem anomalyOf_ip (e : String × IpStats) (a : Anomaly) (h : anomalyOf e = some a) :
    a.ip = e.1 := by
  unfold anomalyOf at h
  split at h
  · simp only [Option.some.injEq] at h
    rw [← h]
  · exact Option.noConfusion h

theorem map_ip_filterMap_anomalyOf (es : List (String × IpStats)) :
    ((es.filterMap anomalyOf).map fun a => a.ip).Sublist (es.map Prod.fst) := by
  induction es with
  | nil => simp
  | cons e es ih =>
    rw [List.filterMap_cons]
    cases hb : anomalyOf e with
    | none => exact List.Sublist.cons _ ih
    | some a =>
      simp only [List.map_cons, anomalyOf_ip e a hb]
      exact List.Sublist.cons₂ _ ih

theorem detectAnomalies_isSome (logs : List LogRecord) :
    (detectAnomalies logs).isSome = true ↔
      ∀ r ∈ logs, stringInherited r.ip = Inherited.nothing := by
  unfold detectAnomalies
  rw [buildIpStats_eq]
  by_cases h : ∀ r ∈ logs, stringInherited r.ip = Inherited.nothing
  · simp [h]
  · simp only [h, if_false, Option.map_none', Option.isSome_none, Bool.false_eq_true]

/-- C7 (amended): when no address names a property inherited from `Object.prototype`,
`detectAnomalies` returns findings in non-increasing score order, and the findings of any one
score follow the order of `Object.entries(ipStats)`: addresses that are canonical array
indices first, in increasing numeric order, then the other addresses in first-seen order.
When no address is an array index this is first-seen order. -/
theorem C7_anomalies_order (logs : List LogRecord)
    (hall : ∀ r ∈ logs, stringInherited r.ip = Inherited.nothing) :
    ∃ res, detectAnomalies logs = some res ∧
      res.2.Pairwise (fun a b => b.score ≤ a.score) ∧
      (∀ s, ((res.2.filter fun a => decide (a.score = s)).map fun a => a.ip).Sublist
        (entryOrder (firstSeen (logs.map fun r => r.ip)))) ∧
      ((∀ r ∈ logs, stringArrayIndex r.ip = none) →
        ∀ s, ((res.2.filter fun a => decide (a.score = s)).map fun a => a.ip).Sublist
          (firstSeen (logs.map fun r => r.ip))) := by
  unfold detectAnomalies
  rw [buildIpStats_eq, if_pos hall]
  refine ⟨_, rfl, ?_⟩
  simp only
  have hr : ∀ a b : Anomaly, ((b.score : Int) - (a.score : Int) ≤ 0) ↔ b.score ≤ a.score := by
    intro a b
    omega
  have hties : ∀ s,
      (((jsSort (fun a b : Anomaly => (b.score : Int) - (a.score : Int))
        ((entries (grouped updateFrom (fun r : LogRecord => r.ip) logs)).filterMap
          anomalyOf)).filter fun a => decide (a.score = s)).map fun a => a.ip).Sublist
        (entryOrder (firstSeen (logs.map fun r => r.ip))) := by
    intro s
    unfold jsSort
    rw [filter_insertionSort (fun a : Anomaly => a.score) _ hr]
    refine List.Sublist.trans ((List.filter_sublist _).map _) ?_
    refine List.Sublist.trans (map_ip_filterMap_anomalyOf _) ?_
    rw [map_fst_entries, keys_grouped]
  refine ⟨?_, hties, ?_⟩
  · unfold jsSort
    exact pairwise_insertionSort (fun a : Anomaly => a.score) _ hr _
  · intro hidx s
    have := hties s
    rwa [entryOrder_of_no_index] at this
    intro k hk
    rw [mem_firstSeen] at hk
    obtain ⟨r, hr, rfl⟩ := List.mem_map.mp hk
    exact hidx r hr

/-- C7 on two scanners of equal score: the findings are sorted and the tied findings follow
the order of `Object.entries`, here the integer-like address first. -/
theorem C7_anomalies_order_witness :
    (∀ r ∈ tieLogs, stringInherited r.ip = Inherited.nothing) ∧
    (detectAnomalies tieLogs).map (fun res => res.2.map fun a => (a.ip, a.score)) =
      some [("3232235777", 40), ("10.0.0.5", 40)] ∧
    entryOrder (firstSeen (tieLogs.map fun r => r.ip)) = ["3232235777", "10.0.0.5"] ∧
    (∃ res, detectAnomalies tieLogs = some res ∧
      res.2.Pairwise (fun a b => b.score ≤ a.score) ∧
      (∀ s, ((res.2.filter fun a => decide (a.score = s)).map fun a => a.ip).Sublist
        (entryOrder (firstSeen (tieLogs.map fun r => r.ip)))) ∧
      ((∀ r ∈ tieLogs, stringArrayIndex r.ip = none) →
        ∀ s, ((res.2.filter fun a => decide (a.score = s)).map fun a => a.ip).Sublist
          (firstSeen (tieLogs.map fun r => r.ip)))) :=
  ⟨by decide, by decide!, by decide!, C7_anomalies_order tieLogs (by decide)⟩

/-- C7 as stated fails: the address `10.0.0.5` is seen first and `3232235777` second, both get
score 40, and the finding of `3232235777` comes first. -/
theorem C7_counterexample :
    firstSeen (tieLogs.map fun r => r.ip) = ["10.0.0.5", "3232235777"] ∧
    (detectAnomalies tieLogs).map (fun res => res.2.map fun a => (a.ip, a.score)) =
      some [("3232235777", 40), ("10.0.0.5", 40)] := by
  decide!

/-! ## Top-10 lists -/

theorem entries_map_keys {α : Type} (v : String → α) (ks : List String) :
    entries (ks.map fun k => (k, v k)) = (entryOrder ks).map fun k => (k, v k) := by
  unfold entries entryOrder
  rw [List.map_append, List.filter_map, List.filter_map]
  congr 1
  exact (List.map_insertionSort
    (fun a b : String => (PropertyKey.arrayIndex a).getD 0 ≤ (PropertyKey.arrayIndex b).getD 0)
    (fun a b : String × α => entryIndex a ≤ entryIndex b)
    (fun k => (k, v k)) _ (fun a _ b _ => Iff.rfl)).symm

theorem top10_eq (key : LogRecord → String) (logs : List LogRecord)
    (h : ∀ r ∈ logs, stringInherited (key r) = Inherited.nothing) :
    top10 (logs.foldl (fun o r => bump o (key r)) []) =
      (((entryOrder (firstSeen (logs.map key))).insertionSort
        (fun a b => keyCount key logs b ≤ keyCount key logs a)).take 10).map
        fun k => (k, CountVal.num (keyCount key logs k)) := by
  unfold top10 jsSort
  rw [foldl_bump key logs h, grouped_incCount]
  have hg : (fun k => (k, CountVal.num (logs.countP fun x => decide (key x = k)))) =
      fun k => (k, CountVal.num (keyCount key logs k)) := rfl
  rw [hg, entries_map_keys, List.map_take]
  congr 1
  refine (List.map_insertionSort
    (fun a b : String => keyCount key logs b ≤ keyCount key logs a)
    (fun a b : String × CountVal => byCountDesc a b ≤ 0)
    (fun k => (k, CountVal.num (keyCount key logs k))) _ ?_).symm
  intro a _ b _
  simp only [byCountDesc]
  omega

theorem top10_spec (key : LogRecord → String) (logs : List LogRecord)
    (h : ∀ r ∈ logs, stringInherited (key r) = Inherited.nothing) :
    IsTop10 key logs (top10 (logs.foldl (fun o r => bump o (key r)) [])) := by
  rw [top10_eq key logs h]
  have hmap : ∀ ks : List String,
      (ks.map fun k => (k, CountVal.num (keyCount key logs k))).map Prod.fst = ks := by
    intro ks
    rw [List.map_map]
    exact List.map_id _
  have hsorted := pairwise_insertionSort (keyCount key logs)
    (fun a b => keyCount key logs b ≤ keyCount key logs a) (fun _ _ => Iff.rfl)
    (entryOrder (firstSeen (logs.map key)))
  have hperm : ((entryOrder (firstSeen (logs.map key))).insertionSort
      (fun a b => keyCount key logs b ≤ keyCount key logs a)).Perm (firstSeen (logs.map key)) :=
    (List.perm_insertionSort _ _).trans (entryOrder_perm _)
  refine ⟨?_, ?_, ?_, ?_, ?_, ?_, ?_⟩
  · rw [List.length_map, List.length_take]
    exact Nat.min_le_left _ _
  · intro e he
    obtain ⟨k, _, rfl⟩ := List.mem_map.mp he
    rfl
  · rw [hmap]
    exact (hperm.nodup_iff.mpr (nodup_firstSeen _)).sublist (List.take_sublist _ _)
  · rw [hmap]
    exact hsorted.sublist (List.take_sublist _ _)
  · rw [hmap]
    intro r hr hnot k hk
    have hmem : key r ∈ (entryOrder (firstSeen (logs.map key))).insertionSort
        (fun a b => keyCount key logs b ≤ keyCount key logs a) := by
      rw [hperm.mem_iff, mem_firstSeen]
      exact List.mem_map_of_mem key hr
    rw [← List.take_append_drop 10 ((entryOrder (firstSeen (logs.map key))).insertionSort
        (fun a b => keyCount key logs b ≤ keyCount key logs a))] at hmem hsorted
    rcases List.mem_append.mp hmem with hm | hm
    · exact absurd hm hnot
    · exact (List.pairwise_append.mp hsorted).2.2 k hk (key r) hm
  · intro n
    rw [hmap]
    have hpre := List.IsPrefix.filter (fun k => decide (keyCount key logs k = n))
      ( List.take_prefix 10 ((entryOrder (firstSeen (logs.map key))).insertionSort
        (fun a b => keyCount key logs b ≤ keyCount key logs a)))
    rwa [filter_insertionSort (keyCount key logs) _ (fun _ _ => Iff.rfl)] at hpre
  · intro hidx
    apply entryOrder_of_no_index
    intro k hk
    rw [mem_firstSeen] at hk
    obtain ⟨r, hr, rfl⟩ := List.mem_map.mp hk
    exact hidx r hr

/-- C8 (amended): when no address and no path names a property inherited from
`Object.prototype`, `topIPs` and `topPaths` have at most 10 entries, each with the number of
valid records of its address (path), in non-increasing count order, no omitted address (path)
having more records than a listed one; entries of equal count are ordered, and selected at
the cut-off, in `Object.entries` order: canonical array indices first in increasing numeric
order, then the other keys in first-seen order (plain first-seen order when no key is an
array index). -/
theorem C8_top10 (logs : List LogRecord)
    (h : ∀ r ∈ logs, stringInherited r.ip = Inherited.nothing ∧
      stringInherited r.path = Inherited.nothing) :
    IsTop10 (fun r => r.ip) logs (top10 (ipCountsOf logs)) ∧
    IsTop10 (fun r => r.path) logs (top10 (pathCountsOf logs)) :=
  ⟨top10_spec (fun r => r.ip) logs fun r hr => (h r hr).1,
   top10_spec (fun r => r.path) logs fun r hr => (h r hr).2⟩

/-- C8 on thirteen requests from twelve addresses: the address with two requests comes first,
then the nine addresses seen first; the two seen last are cut off. -/
theorem C8_top10_witness :
    (∀ r ∈ twelveAddressLogs, stringInherited r.ip = Inherited.nothing ∧
      stringInherited r.path = Inherited.nothing) ∧
    (IsTop10 (fun r => r.ip) twelveAddressLogs (top10 (ipCountsOf twelveAddressLogs)) ∧
     IsTop10 (fun r => r.path) twelveAddressLogs (top10 (pathCountsOf twelveAddressLogs))) ∧
    top10 (ipCountsOf twelveAddressLogs) =
      [("10.0.0.10", CountVal.num 2), ("10.0.0.1", CountVal.num 1), ("10.0.0.2", CountVal.num 1),
       ("10.0.0.3", CountVal.num 1), ("10.0.0.4", CountVal.num 1), ("10.0.0.5", CountVal.num 1),
       ("10.0.0.6", CountVal.num 1), ("10.0.0.7", CountVal.num 1), ("10.0.0.8", CountVal.num 1),
       ("10.0.0.9", CountVal.num 1)] ∧
    top10 (pathCountsOf twelveAddressLogs) = [("/index.html", CountVal.num 13)] :=
  ⟨by decide, C8_top10 twelveAddressLogs (by decide), by decide, by decide⟩

/-- C8 as stated fails: of two addresses with one request each, `10.0.0.5` is seen first, yet
`topIPs` lists `3232235777` first. -/
theorem C8_counterexample :
    firstSeen (twoAddressLogs.map fun r => r.ip) = ["10.0.0.5", "3232235777"] ∧
    top10 (ipCountsOf twoAddressLogs) =
      [("3232235777", CountVal.num 1), ("10.0.0.5", CountVal.num 1)] := by
  decide

/-! ## The status histogram and the empty input -/

theorem statusCountsOf_eq (logs : List LogRecord) :
    statusCountsOf logs =
      (firstSeen (logs.map fun r => r.status)).map fun k =>
        (k, CountVal.num (logs.countP fun r => decide (r.status = k))) := by
  unfold statusCountsOf
  rw [foldl_bump (fun r : LogRecord => r.status) logs (fun _ _ => rfl), grouped_incCount]

theorem numericCounts_map {κ : Type} (c : κ → Nat) (ks : List κ) :
    numericCounts (ks.map fun k => (k, CountVal.num (c k))) = ks.map c := by
  unfold numericCounts
  induction ks with
  | nil => rfl
  | cons k ks ih => simp only [List.map_cons, List.filterMap_cons, ih]

theorem statusData_spec (logs : List LogRecord) :
    (∀ e ∈ entries (statusCountsOf logs), ∃ n, e.2 = CountVal.num n ∧ 1 ≤ n) ∧
    (numericCounts (entries (statusCountsOf logs))).sum = logs.length := by
  rw [statusCountsOf_eq]
  constructor
  · intro e he
    rw [mem_entries] at he
    obtain ⟨k, hk, rfl⟩ := List.mem_map.mp he
    rw [mem_firstSeen] at hk
    refine ⟨_, rfl, ?_⟩
    exact Nat.pos_of_ne_zero (countP_key_ne_zero (fun r : LogRecord => r.status) logs k hk)
  · unfold numericCounts
    rw [((entries_perm _).filterMap _).sum_eq]
    have := numericCounts_map (fun k => logs.countP fun r : LogRecord => decide (r.status = k))
      (firstSeen (logs.map fun r => r.status))
    unfold numericCounts at this
    rw [this]
    exact sum_countP_firstSeen (fun r : LogRecord => r.status) logs

theorem analyzeLogs_some (env : DateEnv) (logs : List LogRecord) (res : Results)
    (h : analyzeLogs env logs = some res) :
    res.statusData = entries (statusCountsOf logs) ∧ res.summary.totalRequests = logs.length := by
  unfold analyzeLogs at h
  simp only [Option.bind_eq_some, Option.map_eq_some'] at h
  obtain ⟨da, _, ts, _, rfl⟩ := h
  exact ⟨rfl, rfl⟩

/-- C5: the counts of `statusData` are positive integers whose sum is the number of valid
records, which is `summary.totalRequests` in the results. -/
theorem C5_statusHistogram (env : DateEnv) (text : String) :
    (∀ e ∈ entries (statusCountsOf (validLogsOf text)), ∃ n, e.2 = CountVal.num n ∧ 1 ≤ n) ∧
    (numericCounts (entries (statusCountsOf (validLogsOf text)))).sum =
      (validLogsOf text).length ∧
    ∀ res, analyzeData env text = some res →
      res.statusData = entries (statusCountsOf (validLogsOf text)) ∧
      res.summary.totalRequests = (validLogsOf text).length ∧
      (numericCounts res.statusData).sum = res.summary.totalRequests := by
  obtain ⟨h1, h2⟩ := statusData_spec (validLogsOf text)
  refine ⟨h1, h2, ?_⟩
  intro res h
  obtain ⟨hs, ht⟩ := analyzeLogs_some env (validLogsOf text) res h
  refine ⟨hs, ht, ?_⟩
  rw [hs, ht, h2]

/-- C5 on an upload with three valid entries (statuses 200, 404, 200): the histogram is
200 -> 2, 404 -> 1 and the total is 3. -/
theorem C5_statusHistogram_witness :
    (analyzeData utcEnv sampleText).map (fun res => (res.statusData, res.summary.totalRequests)) =
      some ([(JSNumber.int 200, CountVal.num 2), (JSNumber.int 404, CountVal.num 1)], 3) ∧
    (numericCounts (entries (statusCountsOf (validLogsOf sampleText)))).sum =
      (validLogsOf sampleText).length ∧
    (validLogsOf sampleText).length = 3 :=
  ⟨by decide!, (C5_statusHistogram utcEnv sampleText).2.1, by decide!⟩

/-- C10 (amended): with no valid record the analysis completes with `totalRequests = 0` and
empty `anomalies`, `timeSeriesData` and `bursts` (every list of the results is empty); the
mean is the NaN that `0 / 0` evaluates to, not 0, and nothing is thrown. -/
theorem C10_empty (env : DateEnv) (text : String) (h : validLogsOf text = []) :
    analyzeData env text = some emptyResults ∧
    detectAnomalies (validLogsOf text) = some ([], []) ∧
    analyzeTimeSeries env (validLogsOf text) = some ([], []) ∧
    avgRequests emptyResults.timeSeriesData = none := by
  unfold analyzeData
  rw [h]
  exact ⟨rfl, rfl, rfl, rfl⟩

/-- C10 on an upload of blank and malformed lines. -/
theorem C10_empty_witness :
    validLogsOf "\n  \nnot a log entry\n" = [] ∧
    (analyzeData utcEnv "\n  \nnot a log entry\n" = some emptyResults ∧
    detectAnomalies (validLogsOf "\n  \nnot a log entry\n") = some ([], []) ∧
    analyzeTimeSeries utcEnv (validLogsOf "\n  \nnot a log entry\n") = some ([], []) ∧
    avgRequests emptyResults.timeSeriesData = none) :=
  ⟨by decide, C10_empty utcEnv "\n  \nnot a log entry\n" (by decide)⟩

/-- C10 as stated fails: on the empty upload there is no valid record and the mean computed
by `analyzeTimeSeries` is NaN, the value of `0 / 0`, not 0. -/
theorem C10_counterexample :
    validLogsOf "" = [] ∧
    (analyzeTimeSeries utcEnv (validLogsOf "")).map (fun res => avgRequests res.1) = some none ∧
    (analyzeTimeSeries utcEnv (validLogsOf "")).map (fun res => avgRequests res.1) ≠
      some (some 0) := by
  decide!

/-! ## parseApacheLog -/

theorem isWhiteSpace_of_isDigit (c : Char) (h : isDigit c = true) : isWhiteSpace c = false := by
  simp only [isDigit, Bool.and_eq_true, decide_eq_true_eq] at h
  simp only [isWhiteSpace, Bool.or_eq_false_iff, Bool.and_eq_false_iff, decide_eq_false_iff_not,
    List.mem_cons, List.mem_singleton, List.not_mem_nil, or_false, Nat.not_le]
  omega

theorem ne_of_isDigit (c d : Char) (h : isDigit c = true) (hd : isDigit d = false) : c ≠ d := by
  rintro rfl
  rw [h] at hd
  exact Bool.noConfusion hd

theorem parseMagnitude_digits (cs : List Char) (hne : cs ≠ [])
    (hall : ∀ c ∈ cs, isDigit c = true) : parseMagnitude cs = some (decimalValue cs) := by
  have htw : cs.takeWhile isDigit = cs := List.takeWhile_eq_self_iff.mpr hall
  unfold parseMagnitude
  split
  · exact absurd rfl (ne_of_isDigit 'x' 'x' (hall 'x' (by simp)) (by decide))
  · exact absurd rfl (ne_of_isDigit 'X' 'X' (hall 'X' (by simp)) (by decide))
  · rw [htw]
    cases cs with
    | nil => exact absurd rfl hne
    | cons c cs => rfl

theorem parseInt_digits (cs : List Char) (hne : cs ≠ [])
    (hall : ∀ c ∈ cs, isDigit c = true) :
    parseInt (String.mk cs) = toNumber ((decimalValue cs : Nat) : Int) := by
  have hdrop : cs.dropWhile isWhiteSpace = cs := by
    cases cs with
    | nil => rfl
    | cons c cs =>
      rw [List.dropWhile_cons, isWhiteSpace_of_isDigit c (hall c (List.mem_cons_self _ _))]
      rfl
  unfold parseInt
  simp only [hdrop]
  split
  · exact absurd rfl (ne_of_isDigit '-' '-' (hall '-' (by simp)) (by decide))
  · exact absurd rfl (ne_of_isDigit '+' '+' (hall '+' (by simp)) (by decide))
  · rw [parseMagnitude_digits cs hne hall]
    rfl

theorem token_some (p : Char → Bool) (cs tok rest : List Char)
    (h : token p cs = some (tok, rest)) : tok ≠ [] ∧ ∀ c ∈ tok, p c = true := by
  unfold token at h
  split at h
  · exact Option.noConfusion h
  · rename_i hemp
    simp only [Option.some.injEq, Prod.mk.injEq] at h
    obtain ⟨rfl, _⟩ := h
    constructor
    · intro hnil
      rw [hnil] at hemp
      exact hemp rfl
    · intro c hc
      exact (List.mem_takeWhile_imp hc)

/-- A record returned by `parseApacheLog` has for status the Number value of a natural
number, a non-empty address and a non-empty timestamp; its size is 0 or the value `parseInt`
gives to some token other than `-`. -/
theorem parseApacheLog_some (line : String) (r : LogRecord) (h : parseApacheLog line = some r) :
    (∃ n : Nat, r.status = toNumber (n : Int)) ∧ r.ip ≠ "" ∧ r.timestamp ≠ "" ∧
    (r.size = JSNumber.int 0 ∨ ∃ tok : String, tok ≠ "-" ∧ r.size = parseInt tok) := by
  unfold parseApacheLog at h
  simp only [Option.bind_eq_some] at h
  obtain ⟨ip, hip, ts, hts, m, _, p, _, r5, _, st, hst, sz, _, ref, _, r9, _, ua, _, hr⟩ := h
  simp only [Option.some.injEq] at hr
  subst hr
  refine ⟨?_, ?_, ?_, ?_⟩
  · unfold matchStatus at hst
    simp only [Option.bind_eq_some, Option.some.injEq] at hst
    obtain ⟨tk, htk, _, _, rfl⟩ := hst
    obtain ⟨hne, hall⟩ := token_some isDigit _ tk.1 tk.2 htk
    exact ⟨decimalValue tk.1, parseInt_digits tk.1 hne hall⟩
  · unfold matchAddress at hip
    simp only [Option.bind_eq_some, Option.some.injEq] at hip
    obtain ⟨tk, htk, _, _, _, _, _, _, _, _, _, _, rfl⟩ := hip
    obtain ⟨hne, _⟩ := token_some isNonSpace _ tk.1 tk.2 htk
    intro hc
    exact hne (congrArg String.data hc)
  · unfold matchTimestamp at hts
    simp only [Option.bind_eq_some, Option.some.injEq] at hts
    obtain ⟨tk, htk, _, _, rfl⟩ := hts
    obtain ⟨hne, _⟩ := token_some _ _ tk.1 tk.2 htk
    intro hc
    exact hne (congrArg String.data hc)
  · unfold mkRecord
    simp only
    by_cases hs : String.mk sz.1 = "-"
    · exact Or.inl (by rw [if_pos hs])
    · exact Or.inr ⟨String.mk sz.1, hs, by rw [if_neg hs]⟩

/-- C9 at a line whose size token is `abc`: the line is accepted with status 200 and a size
that is NaN, not an integer; a line whose status token is `2a0` is rejected. -/
theorem C9_size_not_a_number :
    (parseApacheLog malformedSizeLine).map (fun r => (r.status, r.size)) =
      some (JSNumber.int 200, JSNumber.nan) ∧
    parseApacheLog malformedStatusLine = none := by
  decide

/-! ## The statistics of one address -/

theorem firstSeen_sublist {κ : Type} [DecidableEq κ] (l : List κ) : (firstSeen l).Sublist l := by
  induction l with
  | nil => exact List.Sublist.slnil
  | cons a l ih =>
    rw [firstSeen]
    exact List.Sublist.cons₂ _ ((List.filter_sublist _).trans ih)

theorem setAdd_firstSeen (l : List String) (x : String) :
    setAdd (firstSeen l) x = firstSeen (l ++ [x]) := by
  rw [firstSeen_concat, setAdd]
  simp only [mem_firstSeen]

/-- The statistics of one address in closed form. -/
theorem statsOf_eq (l : List LogRecord) :
    statsOf l =
      { requests := l.length
        distinctPaths := firstSeen (l.map fun r => r.path)
        failures := l.countP fun r => statusFailed r.status
        totalSize := sizeSum l
        methods := firstSeen (l.map fun r => r.method)
        timestamps := l.map fun r => r.timestamp } := by
  induction l using List.reverseRecOn with
  | nil => rfl
  | append_singleton l x ih =>
    unfold statsOf at ih ⊢
    rw [List.foldl_append, ih]
    simp only [List.foldl_cons, List.foldl_nil, updateStats, setAdd_firstSeen, List.map_append,
      List.map_cons, List.map_nil, List.length_append, List.length_singleton,
      List.countP_append, List.countP_cons, List.countP_nil, sizeSum, List.foldl_append]
    congr 1
    by_cases h : statusFailed x.status = true <;> simp [h]

theorem foldl_updateFrom (l : List LogRecord) (s : IpStats) :
    l.foldl (fun acc x => some (updateFrom acc x)) (some s) = some (l.foldl updateStats s) := by
  induction l generalizing s with
  | nil => rfl
  | cons x l ih =>
    simp only [List.foldl_cons, updateFrom, Option.getD_some]
    exact ih _

theorem groupVal_updateFrom (key : LogRecord → String) (k : String) (l : List LogRecord)
    (hk : k ∈ l.map key) :
    groupVal updateFrom key k l = some (statsOf (l.filter fun r => decide (key r = k))) := by
  unfold groupVal statsOf
  cases hf : l.filter (fun r => decide (key r = k)) with
  | nil =>
    exfalso
    obtain ⟨r, hr, rfl⟩ := List.mem_map.mp hk
    have : r ∈ l.filter (fun x => decide (key x = key r)) := by
      rw [List.mem_filter]
      exact ⟨hr, by simp⟩
    rw [hf] at this
    exact List.not_mem_nil _ this
  | cons x xs =>
    simp only [List.foldl_cons, updateFrom, Option.getD_none]
    exact foldl_updateFrom xs _

theorem grouped_updateFrom (key : LogRecord → String) (l : List LogRecord) :
    grouped updateFrom key l =
      (firstSeen (l.map key)).map fun k => (k, statsOf (l.filter fun r => decide (key r = k))) := by
  unfold grouped
  apply filterMap_eq_map_of_some
  intro k hk
  rw [mem_firstSeen] at hk
  exact groupVal_updateFrom key k l hk

theorem wellFormed_statsOf (l : List LogRecord) (hl : l ≠ []) : WellFormedStats (statsOf l) := by
  rw [statsOf_eq]
  have hlen : 1 ≤ l.length := List.length_pos.mpr hl
  have hfail : l.countP (fun r => statusFailed r.status) ≤ l.length := List.countP_le_length _
  refine ⟨hlen, hfail, ?_, ?_, ?_, ?_⟩
  · cases l with
    | nil => exact absurd rfl hl
    | cons a l => simp [firstSeen]
  · have := (firstSeen_sublist (l.map fun r => r.path)).length_le
    simpa using this
  · unfold failRate
    exact div_nonneg (Nat.cast_nonneg _) (Nat.cast_nonneg _)
  · unfold failRate
    have hpos : (0 : ℚ) < ((l.length : Nat) : ℚ) := by exact_mod_cast hlen
    rw [div_le_one hpos]
    exact_mod_cast hfail

theorem buildIpStats_some (logs : List LogRecord) (m : List (String × IpStats))
    (h : buildIpStats logs = some m) :
    m = (firstSeen (logs.map fun r => r.ip)).map fun k =>
      (k, statsOf (logs.filter fun r => decide (r.ip = k))) := by
  rw [buildIpStats_eq] at h
  split at h
  · simp only [Option.some.injEq] at h
    rw [← h, grouped_updateFrom]
  · exact Option.noConfusion h

theorem anomalyOf_score (e : String × IpStats) (a : Anomaly) (h : anomalyOf e = some a) :
    30 < a.score ∧ a.score ≤ 100 := by
  unfold anomalyOf at h
  split at h
  · rename_i hs
    simp only [Option.some.injEq] at h
    rw [← h]
    simp only
    omega
  · exact Option.noConfusion h

/-- C11: `detectAnomalies` returns exactly when no address names a property inherited from
`Object.prototype`; every profile of the `ipStats` it returns counts the records of its
address, with at least one request, no more failures than requests, between one distinct
path and as many as requests, and a failure rate in [0, 1]; the requests of all profiles add
up to the number of records; and every finding has a score above 30 and at most 100. -/
theorem C11_profiles (logs : List LogRecord) :
    ((detectAnomalies logs).isSome = true ↔
      ∀ r ∈ logs, stringInherited r.ip = Inherited.nothing) ∧
    ∀ res, detectAnomalies logs = some res →
      (∀ e ∈ res.1, WellFormedStats e.2 ∧
        e.2.requests = logs.countP fun r => decide (r.ip = e.1)) ∧
      (res.1.map fun e => e.2.requests).sum = logs.length ∧
      (∀ a ∈ res.2, 30 < a.score ∧ a.score ≤ 100) := by
  refine ⟨detectAnomalies_isSome logs, ?_⟩
  intro res h
  unfold detectAnomalies at h
  simp only [Option.map_eq_some'] at h
  obtain ⟨m, hm, rfl⟩ := h
  have hmeq := buildIpStats_some logs m hm
  simp only
  refine ⟨?_, ?_, ?_⟩
  · intro e he
    rw [hmeq] at he
    obtain ⟨k, hk, rfl⟩ := List.mem_map.mp he
    rw [mem_firstSeen] at hk
    simp only
    constructor
    · apply wellFormed_statsOf
      obtain ⟨r, hr, rfl⟩ := List.mem_map.mp hk
      intro hnil
      have : r ∈ logs.filter (fun x => decide (x.ip = r.ip)) := by
        rw [List.mem_filter]
        exact ⟨hr, by simp⟩
      rw [hnil] at this
      exact List.not_mem_nil _ this
    · rw [statsOf_eq]
      simp only [List.countP_eq_length_filter]
  · rw [hmeq, List.map_map]
    have := sum_countP_firstSeen (fun r : LogRecord => r.ip) logs
    rw [← this]
    congr 1
    apply List.map_congr_left
    intro k _
    simp only [Function.comp, statsOf_eq, List.countP_eq_length_filter]
  · intro a ha
    unfold jsSort at ha
    rw [(List.perm_insertionSort _ _).mem_iff, List.mem_filterMap] at ha
    obtain ⟨e, _, he⟩ := ha
    exact anomalyOf_score e a he

/-- C11 on four requests from two addresses: profiles with 3 and 1 requests, 2 and 0
failures, 2 and 1 distinct paths. -/
theorem C11_profiles_witness :
    (detectAnomalies mixedLogs).map
        (fun res => res.1.map fun e => (e.1, e.2.requests, e.2.failures, e.2.distinctPaths.length)) =
      some [("198.51.100.7", 3, 2, 2), ("198.51.100.8", 1, 0, 1)] ∧
    (∀ res, detectAnomalies mixedLogs = some res →
      (∀ e ∈ res.1, WellFormedStats e.2 ∧
        e.2.requests = mixedLogs.countP fun r => decide (r.ip = e.1)) ∧
      (res.1.map fun e => e.2.requests).sum = mixedLogs.length ∧
      (∀ a ∈ res.2, 30 < a.score ∧ a.score ≤ 100)) ∧
    (∀ a ∈ ((detectAnomalies tieLogs).map fun res => res.2).getD [], 30 < a.score ∧ a.score ≤ 100) :=
  ⟨by decide, (C11_profiles mixedLogs).2, by decide!⟩

/-! ## Which profiles are reported -/

theorem scoreStats_cases (stats : IpStats) :
    (scoreStats stats).1 =
      (if stats.requests > 100 then 30 else 0) + (if stats.distinctPaths.length > 50 then 40 else 0)
        + (if failRate stats > 1 / 2 then 20 else 0) + (if stats.failures > 20 then 10 else 0) ∧
    scoreWithoutRatio stats =
      (if stats.requests > 100 then 30 else 0) + (if stats.distinctPaths.length > 50 then 40 else 0)
        + (if stats.failures > 20 then 10 else 0) := by
  unfold scoreStats scoreWithoutRatio firedRules scoringRules failRate
  by_cases h1 : stats.requests > 100 <;> by_cases h2 : stats.distinctPaths.length > 50 <;>
    by_cases h3 : (2 : ℚ)⁻¹ < (stats.failures : ℚ) / (stats.requests : ℚ) <;>
    by_cases h4 : stats.failures > 20 <;>
    simp [List.filter, h1, h2, h3, h4]

theorem failRate_gt_half_iff (stats : IpStats) (hreq : 1 ≤ stats.requests) :
    failRate stats > 1 / 2 ↔ stats.requests < 2 * stats.failures := by
  unfold failRate
  have hpos : (0 : ℚ) < (stats.requests : ℚ) := by exact_mod_cast hreq
  rw [gt_iff_lt, lt_div_iff₀ hpos]
  constructor
  · intro h
    have : ((stats.requests : ℚ)) < 2 * (stats.failures : ℚ) := by linarith
    exact_mod_cast this
  · intro h
    have : ((stats.requests : ℚ)) < 2 * (stats.failures : ℚ) := by exact_mod_cast h
    linarith

/-- C14: for a profile with at least one request (whether or not its failures exceed its
requests), a finding is produced exactly when there are more than 50 distinct paths, or more
than 100 requests together with more than 20 failures; the failure-ratio rule never changes
whether a finding is produced; the raw score is at most 100, so the cap leaves it
unchanged. -/
theorem C14_emission (ip : String) (stats : IpStats) (hreq : 1 ≤ stats.requests) :
    ((anomalyOf (ip, stats)).isSome = true ↔
      (stats.distinctPaths.length > 50 ∨ (stats.requests > 100 ∧ stats.failures > 20))) ∧
    (30 < (scoreStats stats).1 ↔ 30 < scoreWithoutRatio stats) ∧
    (scoreStats stats).1 ≤ 100 ∧
    min (scoreStats stats).1 100 = (scoreStats stats).1 ∧
    ∀ a, anomalyOf (ip, stats) = some a → a.score = (scoreStats stats).1 := by
  obtain ⟨hscore, hwo⟩ := scoreStats_cases stats
  have hratio : failRate stats > 1 / 2 ↔ stats.requests < 2 * stats.failures :=
    failRate_gt_half_iff stats hreq
  have hle : (scoreStats stats).1 ≤ 100 := by
    rw [hscore]
    split_ifs <;> omega
  have hemit : 30 < (scoreStats stats).1 ↔
      (stats.distinctPaths.length > 50 ∨ (stats.requests > 100 ∧ stats.failures > 20)) := by
    rw [hscore]
    by_cases h3 : failRate stats > 1 / 2
    · have h3' := hratio.mp h3
      simp only [h3, if_true]
      split_ifs <;> omega
    · simp only [h3, if_false]
      split_ifs <;> omega
  have hsome : (anomalyOf (ip, stats)).isSome = true ↔ 30 < (scoreStats stats).1 := by
    unfold anomalyOf
    by_cases h : (scoreStats stats).1 > 30 <;> simp [h]
  refine ⟨hsome.trans hemit, ?_, hle, Nat.min_eq_left hle, ?_⟩
  · rw [hemit, hwo]
    split_ifs <;> omega
  · intro a ha
    unfold anomalyOf at ha
    split at ha
    · simp only [Option.some.injEq] at ha
      rw [← ha]
      exact Nat.min_eq_left hle
    · exact Option.noConfusion ha

/-- C14 on a profile with 20 requests, 15 failures and one path: the failure-ratio rule fires
alone, the raw score is 20 and no finding is produced; on the profile with 150 requests, 60
paths and 80 failures the raw score is exactly 100. -/
theorem C14_emission_witness :
    1 ≤ failingProfile.requests ∧ failingProfile.failures ≤ failingProfile.requests ∧
    (((anomalyOf ("10.0.0.1", failingProfile)).isSome = true ↔
      (failingProfile.distinctPaths.length > 50 ∨
        (failingProfile.requests > 100 ∧ failingProfile.failures > 20))) ∧
    (30 < (scoreStats failingProfile).1 ↔ 30 < scoreWithoutRatio failingProfile) ∧
    (scoreStats failingProfile).1 ≤ 100 ∧
    min (scoreStats failingProfile).1 100 = (scoreStats failingProfile).1 ∧
    ∀ a, anomalyOf ("10.0.0.1", failingProfile) = some a →
      a.score = (scoreStats failingProfile).1) ∧
    scoreStats failingProfile = (20, ["High failure rate"]) ∧
    anomalyOf ("10.0.0.1", failingProfile) = none ∧
    (scoreStats exampleProfile).1 = 100 :=
  ⟨by decide, by decide, C14_emission "10.0.0.1" failingProfile (by decide),
   by decide!, by decide!, by decide!⟩

/-! ## The validity filter -/

/-- C15: a record returned by `parseApacheLog` has a non-empty `ip` and a non-empty
`timestamp`, so the filter `log.timestamp && log.ip` keeps every parsed record: `validLogs`
equals `parsedLogs` for every input. -/
theorem C15_validLogs (text : String) :
    (∀ line r, parseApacheLog line = some r → r.ip ≠ "" ∧ r.timestamp ≠ "") ∧
    validLogsOf text = parsedLogsOf text := by
  have hne : ∀ line r, parseApacheLog line = some r → r.ip ≠ "" ∧ r.timestamp ≠ "" := by
    intro line r h
    obtain ⟨_, hip, hts, _⟩ := parseApacheLog_some line r h
    exact ⟨hip, hts⟩
  refine ⟨hne, ?_⟩
  unfold validLogsOf
  rw [List.filter_eq_self]
  intro log hlog
  unfold parsedLogsOf at hlog
  obtain ⟨line, _, hline⟩ := List.mem_filterMap.mp hlog
  obtain ⟨hip, hts⟩ := hne line log hline
  simp [hip, hts]

/-- C15 on an upload of five lines: the three lines that parse are the three valid records. -/
theorem C15_validLogs_witness :
    ((∀ line r, parseApacheLog line = some r → r.ip ≠ "" ∧ r.timestamp ≠ "") ∧
      validLogsOf sampleText = parsedLogsOf sampleText) ∧
    (parsedLogsOf sampleText).map (fun r => (r.ip, r.timestamp)) =
      [("198.51.100.7", "2023-10-10T13:55:36Z"), ("198.51.100.8", "2023-10-10T13:55:40Z"),
       ("198.51.100.7", "2023-10-10T13:56:02Z")] :=
  ⟨C15_validLogs sampleText, by decide⟩

/-! ## One busy minute among ten -/

theorem analyzeTimeSeries_perm (env : DateEnv) (logs : List LogRecord)
    (res : List Bucket × List Bucket) (h : analyzeTimeSeries env logs = some res) :
    res.1.Perm ((firstSeen (minuteKeys env logs)).map fun k =>
      bucketOf (k, some ((minuteKeys env logs).count k))) := by
  unfold analyzeTimeSeries at h
  rw [buildTimeSlots_eq] at h
  split at h
  · simp only [Option.map_some', Option.some.injEq] at h
    rw [← h]
    refine (timeSeriesOf_perm env _).trans ?_
    rw [List.map_map]
    rfl
  · exact Option.noConfusion h

theorem sum_map_one_of_not_mem (k0 : String) (ks : List String) (h : k0 ∉ ks)
    (c : String → Nat) (h1 : ∀ k ∈ ks, k ≠ k0 → c k = 1) : (ks.map c).sum = ks.length := by
  induction ks with
  | nil => rfl
  | cons a ks ih =>
    have ha : a ≠ k0 := fun e => h (e ▸ List.mem_cons_self _ _)
    rw [List.map_cons, List.sum_cons, List.length_cons, h1 a (List.mem_cons_self _ _) ha,
      ih (fun hm => h (List.mem_cons_of_mem _ hm))
        (fun k hk => h1 k (List.mem_cons_of_mem _ hk))]
    omega

theorem sum_map_spike (k0 : String) (ks : List String) (hnd : ks.Nodup) (hk0 : k0 ∈ ks)
    (c : String → Nat) (h40 : c k0 = 40) (h1 : ∀ k ∈ ks, k ≠ k0 → c k = 1) :
    (ks.map c).sum = ks.length + 39 := by
  induction ks with
  | nil => exact absurd hk0 (List.not_mem_nil _)
  | cons a ks ih =>
    rw [List.nodup_cons] at hnd
    rw [List.map_cons, List.sum_cons, List.length_cons]
    by_cases ha : a = k0
    · subst ha
      rw [h40, sum_map_one_of_not_mem a ks hnd.1 c
        (fun k hk => h1 k (List.mem_cons_of_mem _ hk))]
      omega
    · have hk0' : k0 ∈ ks := by
        rcases List.mem_cons.mp hk0 with e | hm
        · exact absurd e.symm ha
        · exact hm
      rw [h1 a (List.mem_cons_self _ _) ha,
        ih hnd.2 hk0' (fun k hk => h1 k (List.mem_cons_of_mem _ hk))]
      omega

theorem filter_spike (k0 : String) (ks : List String) (hnd : ks.Nodup) (hk0 : k0 ∈ ks)
    (p : String → Bool) (hp0 : p k0 = true) (hp : ∀ k ∈ ks, k ≠ k0 → p k = false) :
    ks.filter p = [k0] := by
  induction ks with
  | nil => exact absurd hk0 (List.not_mem_nil _)
  | cons a ks ih =>
    rw [List.nodup_cons] at hnd
    by_cases ha : a = k0
    · subst ha
      rw [List.filter_cons_of_pos hp0]
      congr 1
      rw [List.filter_eq_nil_iff]
      intro k hk
      have hka : k ≠ a := fun e => hnd.1 (e ▸ hk)
      rw [hp k (List.mem_cons_of_mem _ hk) hka]
      exact Bool.false_ne_true
    · have hk0' : k0 ∈ ks := by
        rcases List.mem_cons.mp hk0 with e | hm
        · exact absurd e.symm ha
        · exact hm
      rw [List.filter_cons_of_neg (by rw [hp a (List.mem_cons_self _ _) ha]; exact Bool.false_ne_true)]
      exact ih hnd.2 hk0' (fun k hk => hp k (List.mem_cons_of_mem _ hk))

/-- C13: when the records fall into ten minute buckets, one holding 40 records and each of
the other nine holding one (49 records), the mean bucket count is 4.9, the burst threshold
is 14.7, and `bursts` is exactly the bucket of 40. -/
theorem C13_spike (env : DateEnv) (logs : List LogRecord) (res : List Bucket × List Bucket)
    (k0 : String) (h : analyzeTimeSeries env logs = some res)
    (hten : (firstSeen (minuteKeys env logs)).length = 10)
    (h40 : (minuteKeys env logs).count k0 = 40)
    (h1 : ∀ k ∈ minuteKeys env logs, k ≠ k0 → (minuteKeys env logs).count k = 1) :
    logs.length = 49 ∧ res.1.length = 10 ∧
    avgRequests res.1 = some (49 / 10) ∧ ((49 / 10 : ℚ) * 3 = 147 / 10) ∧
    res.2 = [{ time := sliceLabel k0, count := some 40 }] := by
  obtain ⟨hcounts, hsum, _, hb⟩ := analyzeTimeSeries_some env logs res h
  have hperm := analyzeTimeSeries_perm env logs res h
  have hnd := nodup_firstSeen (minuteKeys env logs)
  have hk0 : k0 ∈ firstSeen (minuteKeys env logs) := by
    rw [mem_firstSeen]
    apply List.count_pos_iff.mp
    omega
  have h1' : ∀ k ∈ firstSeen (minuteKeys env logs), k ≠ k0 →
      (minuteKeys env logs).count k = 1 := by
    intro k hk
    rw [mem_firstSeen] at hk
    exact h1 k hk
  have hlen : res.1.length = 10 := by
    rw [hperm.length_eq, List.length_map, hten]
  have htotal : (bucketCounts res.1).sum = 49 := by
    unfold bucketCounts
    rw [(hperm.filterMap _).sum_eq]
    have := filterMap_count_bucketOf (fun k => (minuteKeys env logs).count k)
      (firstSeen (minuteKeys env logs))
    rw [List.map_map] at this
    simp only [Function.comp_def] at this
    rw [this, sum_map_spike k0 _ hnd hk0 _ h40 h1', hten]
  have hne : res.1 ≠ [] := by
    intro e
    rw [e] at hlen
    exact absurd hlen (by decide)
  have havg : avgRequests res.1 = some (49 / 10) := by
    rw [avgRequests_eq_mean res.1 (fun b hb => let ⟨n, hn, _⟩ := hcounts b hb; ⟨n, hn⟩) hne]
    unfold meanCount
    rw [htotal, hlen]
    norm_num
  refine ⟨by rw [← hsum, htotal], hlen, havg, by norm_num, ?_⟩
  rw [hb, havg]
  apply List.perm_singleton.mp
  refine (hperm.filter _).trans ?_
  rw [List.filter_map]
  have hf : (firstSeen (minuteKeys env logs)).filter
      ((isBurst (some (49 / 10))) ∘ fun k => bucketOf (k, some ((minuteKeys env logs).count k))) =
      [k0] := by
    apply filter_spike k0 _ hnd hk0
    · simp only [Function.comp, isBurst, bucketOf, h40, decide_eq_true_eq]
      norm_num
    · intro k hk hne0
      simp only [Function.comp, isBurst, bucketOf, h1' k hk hne0, decide_eq_false_iff_not]
      norm_num
  rw [hf]
  simp [bucketOf, h40]

/-- C13 on 49 requests over ten consecutive minutes, forty of them in the minute 13:05: the
mean is 4.9, the threshold 14.7 and the only burst is the bucket of 13:05. -/
theorem C13_spike_witness :
    analyzeTimeSeries utcEnv spikeLogs = some (spikeSeries, [⟨"13:05", some 40⟩]) ∧
    (firstSeen (minuteKeys utcEnv spikeLogs)).length = 10 ∧
    (minuteKeys utcEnv spikeLogs).count "2023-10-10T13:05:00.000Z" = 40 ∧
    (∀ k ∈ minuteKeys utcEnv spikeLogs, k ≠ "2023-10-10T13:05:00.000Z" →
      (minuteKeys utcEnv spikeLogs).count k = 1) ∧
    (spikeLogs.length = 49 ∧ spikeSeries.length = 10 ∧
      avgRequests spikeSeries = some (49 / 10) ∧ ((49 / 10 : ℚ) * 3 = 147 / 10) ∧
      [(⟨"13:05", some 40⟩ : Bucket)] =
        [{ time := sliceLabel "2023-10-10T13:05:00.000Z", count := some 40 }]) :=
  ⟨by decide!, by decide, by decide, by decide,
   C13_spike utcEnv spikeLogs (spikeSeries, [⟨"13:05", some 40⟩]) "2023-10-10T13:05:00.000Z"
     (by decide!) (by decide) (by decide) (by decide)⟩

/-! ## Merging profile maps -/

theorem firstSeen_append {κ : Type} [DecidableEq κ] (a b : List κ) :
    firstSeen (a ++ b) = firstSeen a ++ (firstSeen b).filter fun x => decide (x ∉ a) := by
  induction b using List.reverseRecOn with
  | nil => simp [firstSeen]
  | append_singleton b x ih =>
    rw [← List.append_assoc, firstSeen_concat, firstSeen_concat, ih]
    by_cases hxa : x ∈ a
    · by_cases hxb : x ∈ b
      · simp [hxa, hxb]
      · simp [hxa, hxb, List.filter_append]
    · by_cases hxb : x ∈ b
      · simp [hxa, hxb]
      · simp [hxa, hxb, List.filter_append]

theorem firstSeen_perm {κ : Type} [DecidableEq κ] (a b : List κ) (h : a.Perm b) :
    (firstSeen a).Perm (firstSeen b) := by
  rw [List.perm_ext_iff_of_nodup (nodup_firstSeen a) (nodup_firstSeen b)]
  intro x
  rw [mem_firstSeen, mem_firstSeen, h.mem_iff]

/-! ### Sums of sizes that are not rounded -/

theorem toNumber_of_le (n : Nat) (h : n ≤ 9007199254740992) :
    toNumber (n : Int) = JSNumber.int (n : Int) := by
  unfold toNumber roundNat
  simp only [Int.natAbs_ofNat, h, if_true]
  have : ¬ ((n : Int) < 0) := by omega
  simp [this]

theorem jsAdd_int (a b : Nat) (h : a + b ≤ 9007199254740992) :
    jsAdd (JSNumber.int (a : Int)) (JSNumber.int (b : Int)) = JSNumber.int ((a + b : Nat) : Int) := by
  unfold jsAdd
  simp only
  rw [← toNumber_of_le (a + b) h]
  congr 1

theorem foldl_jsAdd_exact (l : List LogRecord) (s : Nat)
    (hl : ∀ r ∈ l, r.size = JSNumber.int (sizeNat r))
    (hs : s + (l.map sizeNat).sum ≤ 9007199254740992) :
    l.foldl (fun a r => jsAdd a r.size) (JSNumber.int (s : Int)) =
      JSNumber.int ((s + (l.map sizeNat).sum : Nat) : Int) := by
  induction l generalizing s with
  | nil => simp
  | cons r l ih =>
    simp only [List.map_cons, List.sum_cons] at hs
    rw [List.foldl_cons, hl r (List.mem_cons_self _ _), jsAdd_int s (sizeNat r) (by omega),
      ih (s + sizeNat r) (fun x hx => hl x (List.mem_cons_of_mem _ hx)) (by omega)]
    simp only [List.map_cons, List.sum_cons, Nat.add_assoc]

theorem sizeSum_exact (l : List LogRecord) (h : ExactSizes l) :
    sizeSum l = JSNumber.int (((l.map sizeNat).sum : Nat) : Int) := by
  have := foldl_jsAdd_exact l 0 h.1 (by simpa using h.2)
  simpa [sizeSum] using this

theorem exactSizes_append_left (a b : List LogRecord) (h : ExactSizes (a ++ b)) :
    ExactSizes a := by
  refine ⟨fun r hr => h.1 r (List.mem_append_left _ hr), ?_⟩
  have := h.2
  simp only [List.map_append, List.sum_append] at this
  omega

theorem exactSizes_append_right (a b : List LogRecord) (h : ExactSizes (a ++ b)) :
    ExactSizes b := by
  refine ⟨fun r hr => h.1 r (List.mem_append_right _ hr), ?_⟩
  have := h.2
  simp only [List.map_append, List.sum_append] at this
  omega

theorem sum_filter_le (l : List LogRecord) (p : LogRecord → Bool) :
    ((l.filter p).map sizeNat).sum ≤ (l.map sizeNat).sum := by
  induction l with
  | nil => simp
  | cons r l ih =>
    by_cases hp : p r = true
    · simp only [List.filter_cons_of_pos hp, List.map_cons, List.sum_cons]
      omega
    · simp only [List.filter_cons_of_neg hp, List.map_cons, List.sum_cons]
      omega

theorem exactSizes_filter (l : List LogRecord) (p : LogRecord → Bool) (h : ExactSizes l) :
    ExactSizes (l.filter p) :=
  ⟨fun r hr => h.1 r (List.mem_filter.mp hr).1, (sum_filter_le l p).trans h.2⟩

theorem exactSizes_perm (a b : List LogRecord) (hp : a.Perm b) (h : ExactSizes a) :
    ExactSizes b :=
  ⟨fun r hr => h.1 r (hp.mem_iff.mpr hr), by rw [← (hp.map sizeNat).sum_eq]; exact h.2⟩

theorem sizeSum_append_exact (a b : List LogRecord) (h : ExactSizes (a ++ b)) :
    sizeSum (a ++ b) = jsAdd (sizeSum a) (sizeSum b) := by
  rw [sizeSum_exact _ h, sizeSum_exact a (exactSizes_append_left a b h),
    sizeSum_exact b (exactSizes_append_right a b h), jsAdd_int]
  · simp only [List.map_append, List.sum_append]
  · have := h.2
    simp only [List.map_append, List.sum_append] at this
    exact this

theorem sizeSum_perm_exact (a b : List LogRecord) (hp : a.Perm b) (h : ExactSizes a) :
    sizeSum a = sizeSum b := by
  rw [sizeSum_exact a h, sizeSum_exact b (exactSizes_perm a b hp h), (hp.map sizeNat).sum_eq]

/-! ### The statistics of a concatenation -/

/-- The statistics of a concatenation are, `totalSize` aside, the merge of the statistics of
its parts. -/
theorem forgetSize_statsOf_append (a b : List LogRecord) :
    forgetSize (statsOf (a ++ b)) = forgetSize (mergeStats (statsOf a) (statsOf b)) := by
  rw [statsOf_eq, statsOf_eq a, statsOf_eq b]
  unfold mergeStats setUnion forgetSize
  simp only [List.length_append, List.map_append, List.countP_append,
    firstSeen_append, mem_firstSeen]

/-- When no addition of sizes is rounded, the statistics of a concatenation are the merge of
the statistics of its parts. -/
theorem statsOf_append_exact (a b : List LogRecord) (h : ExactSizes (a ++ b)) :
    statsOf (a ++ b) = mergeStats (statsOf a) (statsOf b) := by
  rw [statsOf_eq, statsOf_eq a, statsOf_eq b]
  unfold mergeStats setUnion
  simp only [List.length_append, List.map_append, List.countP_append,
    sizeSum_append_exact a b h, firstSeen_append, mem_firstSeen]

/-- Reordering the records of an address changes its statistics, `totalSize` aside, only in
the order inside the sets and the timestamp list. -/
theorem statsOf_perm (a b : List LogRecord) (h : a.Perm b) :
    SameUpToOrder (statsOf a) (statsOf b) := by
  rw [statsOf_eq a, statsOf_eq b]
  exact ⟨h.length_eq, h.countP_eq _, firstSeen_perm _ _ (h.map _),
    firstSeen_perm _ _ (h.map _), h.map _⟩

theorem totalSize_perm_exact (a b : List LogRecord) (hp : a.Perm b) (h : ExactSizes a) :
    (statsOf a).totalSize = (statsOf b).totalSize := by
  rw [statsOf_eq a, statsOf_eq b]
  exact sizeSum_perm_exact a b hp h

/-! ### The profile map of a concatenation -/

theorem own?_profiles (l : List LogRecord) (k : String) :
    own? ((firstSeen (l.map fun r => r.ip)).map fun k =>
        (k, statsOf (l.filter fun r => decide (r.ip = k)))) k =
      if k ∈ l.map (fun r => r.ip) then some (statsOf (l.filter fun r => decide (r.ip = k)))
      else none := by
  rw [← grouped_updateFrom, own?_grouped]
  by_cases hk : k ∈ l.map (fun r => r.ip)
  · rw [if_pos hk, groupVal_updateFrom _ k l hk]
  · rw [if_neg hk]
    exact (groupVal_eq_none _ _ k l).mpr hk

theorem filter_eq_nil_of_not_mem (l : List LogRecord) (k : String)
    (hk : k ∉ l.map (fun r => r.ip)) : l.filter (fun r => decide (r.ip = k)) = [] := by
  rw [List.filter_eq_nil_iff]
  intro r hr
  simp only [decide_eq_true_eq]
  intro e
  exact hk (List.mem_map.mpr ⟨r, hr, e⟩)

/-- The profile map of a concatenation is the merge of the profile maps of its parts, seen
through any view `F` of the statistics under which concatenation is merge. -/
theorem profiles_append (F : IpStats → IpStats) (xs ys : List LogRecord)
    (hF : ∀ k, F (statsOf (xs.filter (fun r => decide (r.ip = k)) ++
        ys.filter (fun r => decide (r.ip = k)))) =
      F (mergeStats (statsOf (xs.filter fun r => decide (r.ip = k)))
        (statsOf (ys.filter fun r => decide (r.ip = k))))) :
    (((firstSeen ((xs ++ ys).map fun r => r.ip)).map fun k =>
        (k, statsOf ((xs ++ ys).filter fun r => decide (r.ip = k)))).map
          fun e => (e.1, F e.2)) =
      (mergeMaps
        ((firstSeen (xs.map fun r => r.ip)).map fun k =>
          (k, statsOf (xs.filter fun r => decide (r.ip = k))))
        ((firstSeen (ys.map fun r => r.ip)).map fun k =>
          (k, statsOf (ys.filter fun r => decide (r.ip = k))))).map fun e => (e.1, F e.2) := by
  unfold mergeMaps
  rw [List.map_append, firstSeen_append, List.map_append, List.map_append, List.map_append]
  congr 1
  · rw [List.map_map, List.map_map, List.map_map]
    apply List.map_congr_left
    intro k _
    simp only [Function.comp, own?_profiles ys k, List.filter_append]
    by_cases hk : k ∈ ys.map (fun r => r.ip)
    · simp only [hk, if_true, hF k]
    · simp only [hk, if_false, filter_eq_nil_of_not_mem ys k hk, List.append_nil]
  · rw [List.filter_map, List.map_map, List.map_map]
    have hfilter : (firstSeen (ys.map fun r => r.ip)).filter
        ((fun e : String × IpStats => (own? ((firstSeen (xs.map fun r => r.ip)).map fun k =>
          (k, statsOf (xs.filter fun r => decide (r.ip = k)))) e.1).isNone) ∘
          fun k => (k, statsOf (ys.filter fun r => decide (r.ip = k)))) =
        (firstSeen (ys.map fun r => r.ip)).filter
          (fun x => decide (x ∉ xs.map fun r => r.ip)) := by
      apply List.filter_congr
      intro k _
      simp only [Function.comp, own?_profiles xs k]
      by_cases hk : k ∈ xs.map (fun r => r.ip) <;> simp [hk]
    rw [hfilter]
    apply List.map_congr_left
    intro k hk
    rw [List.mem_filter] at hk
    have hk2 : k ∉ xs.map (fun r => r.ip) := by simpa using hk.2
    simp only [Function.comp, List.filter_append, filter_eq_nil_of_not_mem xs k hk2,
      List.nil_append]

theorem buildIpStats_profiles (logs : List LogRecord)
    (h : ∀ r ∈ logs, stringInherited r.ip = Inherited.nothing) :
    buildIpStats logs =
      some ((firstSeen (logs.map fun r => r.ip)).map fun k =>
        (k, statsOf (logs.filter fun r => decide (r.ip = k)))) := by
  rw [buildIpStats_eq, if_pos h, grouped_updateFrom]

theorem buildIpStats_nothing (logs : List LogRecord) (m : List (String × IpStats))
    (h : buildIpStats logs = some m) : ∀ r ∈ logs, stringInherited r.ip = Inherited.nothing := by
  rw [buildIpStats_eq] at h
  split at h
  · assumption
  · exact Option.noConfusion h

theorem forgetSizes_merge (xs ys : List LogRecord) (mx my : List (String × IpStats))
    (hx : buildIpStats xs = some mx) (hy : buildIpStats ys = some my) :
    forgetSizes ((firstSeen ((xs ++ ys).map fun r => r.ip)).map fun k =>
        (k, statsOf ((xs ++ ys).filter fun r => decide (r.ip = k)))) =
      forgetSizes (mergeMaps mx my) := by
  rw [buildIpStats_some xs mx hx, buildIpStats_some ys my hy]
  exact profiles_append forgetSize xs ys fun k => forgetSize_statsOf_append _ _

theorem exact_merge (xs ys : List LogRecord) (mx my : List (String × IpStats))
    (hx : buildIpStats xs = some mx) (hy : buildIpStats ys = some my)
    (hex : ExactSizes (xs ++ ys)) :
    ((firstSeen ((xs ++ ys).map fun r => r.ip)).map fun k =>
        (k, statsOf ((xs ++ ys).filter fun r => decide (r.ip = k)))) = mergeMaps mx my := by
  rw [buildIpStats_some xs mx hx, buildIpStats_some ys my hy]
  have := profiles_append id xs ys fun k => by
    have hk : ExactSizes (xs.filter (fun r => decide (r.ip = k)) ++
        ys.filter (fun r => decide (r.ip = k))) := by
      rw [← List.filter_append]
      exact exactSizes_filter _ _ hex
    simp only [id, statsOf_append_exact _ _ hk]
  simpa using this

/-- C12 (amended): when `detectAnomalies` builds the maps `mx` for `xs` and `my` for `ys`, it
builds maps for `xs ++ ys` and for `ys ++ xs`, and these are, `totalSize` aside, the merges of
`mx` with `my` and of `my` with `mx` (per address: requests and failures added, paths and
methods united in insertion order, timestamps concatenated).  When the sizes are non-negative
integers adding up to at most `2 ^ 53`, so that no addition is rounded, `totalSize` is added
too.  The two maps have the same addresses and, per address, the same requests and failures,
the same paths and methods as sets and the same timestamps up to order, and the same
`totalSize` when no addition is rounded. -/
theorem C12_merge (xs ys : List LogRecord) (mx my : List (String × IpStats))
    (hx : buildIpStats xs = some mx) (hy : buildIpStats ys = some my) :
    ∃ mxy myx, buildIpStats (xs ++ ys) = some mxy ∧ buildIpStats (ys ++ xs) = some myx ∧
      forgetSizes mxy = forgetSizes (mergeMaps mx my) ∧
      forgetSizes myx = forgetSizes (mergeMaps my mx) ∧
      (ExactSizes (xs ++ ys) → mxy = mergeMaps mx my ∧ myx = mergeMaps my mx) ∧
      (mxy.map Prod.fst).Perm (myx.map Prod.fst) ∧
      ∀ k p q, (k, p) ∈ mxy → (k, q) ∈ myx →
        SameUpToOrder p q ∧ (ExactSizes (xs ++ ys) → p.totalSize = q.totalSize) := by
  have hnx := buildIpStats_nothing xs mx hx
  have hny := buildIpStats_nothing ys my hy
  have hxy : ∀ r ∈ xs ++ ys, stringInherited r.ip = Inherited.nothing := by
    intro r hr
    rcases List.mem_append.mp hr with h | h
    · exact hnx r h
    · exact hny r h
  have hyx : ∀ r ∈ ys ++ xs, stringInherited r.ip = Inherited.nothing := by
    intro r hr
    rcases List.mem_append.mp hr with h | h
    · exact hny r h
    · exact hnx r h
  refine ⟨_, _, buildIpStats_profiles _ hxy, buildIpStats_profiles _ hyx,
    forgetSizes_merge xs ys mx my hx hy, forgetSizes_merge ys xs my mx hy hx, ?_, ?_, ?_⟩
  · intro hex
    exact ⟨exact_merge xs ys mx my hx hy hex,
      exact_merge ys xs my mx hy hx (exactSizes_perm _ _ List.perm_append_comm hex)⟩
  · rw [List.map_map, List.map_map]
    have hid : ∀ l : List LogRecord, (Prod.fst ∘ fun k : String =>
        (k, statsOf (l.filter fun r => decide (r.ip = k)))) = id := fun _ => rfl
    rw [hid, hid, List.map_id, List.map_id]
    exact firstSeen_perm _ _ (List.perm_append_comm.map _)
  · intro k p q hp hq
    obtain ⟨k1, _, e1⟩ := List.mem_map.mp hp
    obtain ⟨k2, _, e2⟩ := List.mem_map.mp hq
    simp only [Prod.mk.injEq] at e1 e2
    obtain ⟨rfl, rfl⟩ := e1
    obtain ⟨rfl, rfl⟩ := e2
    refine ⟨statsOf_perm _ _ (List.perm_append_comm.filter _), ?_⟩
    intro hex
    exact totalSize_perm_exact _ _ (List.perm_append_comm.filter _) (exactSizes_filter _ _ hex)

/-- C12 on three requests of two addresses followed by one more request of the first: the
sizes add up to 2560, nothing is rounded, and the map of the concatenation is the merge. -/
theorem C12_merge_witness :
    buildIpStats mixedLogs =
      some [("198.51.100.7", statsOf (mixedLogs.filter fun r => decide (r.ip = "198.51.100.7"))),
            ("198.51.100.8", statsOf (mixedLogs.filter fun r => decide (r.ip = "198.51.100.8")))] ∧
    buildIpStats lateLogs = some [("198.51.100.7", statsOf lateLogs)] ∧
    ExactSizes (mixedLogs ++ lateLogs) ∧
    (buildIpStats (mixedLogs ++ lateLogs)).map
        (fun m => m.map fun e => (e.1, e.2.requests, e.2.failures, e.2.totalSize)) =
      some [("198.51.100.7", 4, 2, JSNumber.int 2048), ("198.51.100.8", 1, 0, JSNumber.int 512)] ∧
    (∃ mxy myx, buildIpStats (mixedLogs ++ lateLogs) = some mxy ∧
      buildIpStats (lateLogs ++ mixedLogs) = some myx ∧
      forgetSizes mxy = forgetSizes (mergeMaps
        [("198.51.100.7", statsOf (mixedLogs.filter fun r => decide (r.ip = "198.51.100.7"))),
         ("198.51.100.8", statsOf (mixedLogs.filter fun r => decide (r.ip = "198.51.100.8")))]
        [("198.51.100.7", statsOf lateLogs)]) ∧
      forgetSizes myx = forgetSizes (mergeMaps [("198.51.100.7", statsOf lateLogs)]
        [("198.51.100.7", statsOf (mixedLogs.filter fun r => decide (r.ip = "198.51.100.7"))),
         ("198.51.100.8", statsOf (mixedLogs.filter fun r => decide (r.ip = "198.51.100.8")))]) ∧
      (ExactSizes (mixedLogs ++ lateLogs) →
        mxy = mergeMaps
          [("198.51.100.7", statsOf (mixedLogs.filter fun r => decide (r.ip = "198.51.100.7"))),
           ("198.51.100.8", statsOf (mixedLogs.filter fun r => decide (r.ip = "198.51.100.8")))]
          [("198.51.100.7", statsOf lateLogs)] ∧
        myx = mergeMaps [("198.51.100.7", statsOf lateLogs)]
          [("198.51.100.7", statsOf (mixedLogs.filter fun r => decide (r.ip = "198.51.100.7"))),
           ("198.51.100.8", statsOf (mixedLogs.filter fun r => decide (r.ip = "198.51.100.8")))]) ∧
      (mxy.map Prod.fst).Perm (myx.map Prod.fst) ∧
      ∀ k p q, (k, p) ∈ mxy → (k, q) ∈ myx →
        SameUpToOrder p q ∧ (ExactSizes (mixedLogs ++ lateLogs) → p.totalSize = q.totalSize)) :=
  ⟨by decide, by decide, ⟨by decide, by decide⟩, by decide,
   C12_merge mixedLogs lateLogs _ _ (by decide) (by decide)⟩

/-- C12 as stated fails.  For one request at 13:55 and one at 13:56 of the same address, the
map built for the first followed by the second lists the timestamps in that order and the map
built for the second followed by the first in the other order, so the two maps differ.  And
for a download of `2 ^ 53` bytes followed by two of one byte, `totalSize` is `2 ^ 53` (each
addition of 1 is rounded away), which is neither the sum `2 ^ 53 + 2` of the two maps'
totals nor the `totalSize` built for the other order. -/
theorem C12_counterexample :
    (buildIpStats (earlyLogs ++ lateLogs)).map (fun m => m.map fun e => (e.1, e.2.timestamps)) =
      some [("198.51.100.7", ["2023-10-10T13:55:36Z", "2023-10-10T13:56:02Z"])] ∧
    (buildIpStats (lateLogs ++ earlyLogs)).map (fun m => m.map fun e => (e.1, e.2.timestamps)) =
      some [("198.51.100.7", ["2023-10-10T13:56:02Z", "2023-10-10T13:55:36Z"])] ∧
    buildIpStats (earlyLogs ++ lateLogs) ≠ buildIpStats (lateLogs ++ earlyLogs) ∧
    (buildIpStats (largeDownload ++ smallDownloads)).map (fun m => m.map fun e => e.2.totalSize) =
      some [JSNumber.int 9007199254740992] ∧
    (buildIpStats (smallDownloads ++ largeDownload)).map (fun m => m.map fun e => e.2.totalSize) =
      some [JSNumber.int 9007199254740994] ∧
    (mergeMaps [("198.51.100.7", statsOf largeDownload)]
        [("198.51.100.7", statsOf smallDownloads)]).map (fun e => e.2.totalSize) =
      [JSNumber.int 9007199254740994] ∧
    buildIpStats largeDownload = some [("198.51.100.7", statsOf largeDownload)] ∧
    buildIpStats smallDownloads = some [("198.51.100.7", statsOf smallDownloads)] := by
  decide!

/-! ## Brute-force entries -/

/-- When `analyzeData` produces results, `detectAnomalies` has returned on the valid records
and `attackPatterns` is what `detectAttackPatterns` returns on them. -/
theorem analyzeLogs_attackPatterns (env : DateEnv) (logs : List LogRecord) (res : Results)
    (h : analyzeLogs env logs = some res) :
    (detectAnomalies logs).isSome = true ∧ res.attackPatterns = detectAttackPatterns logs := by
  unfold analyzeLogs at h
  simp only [Option.bind_eq_some, Option.map_eq_some'] at h
  obtain ⟨da, hda, ts, _, rfl⟩ := h
  exact ⟨by rw [hda]; rfl, rfl⟩

/-- C2: on every record sequence that reaches `detectAttackPatterns` (`analyzeData` calls it
once `detectAnomalies` has returned on the same records), `bruteForce` holds the entry
`(a, n)` exactly when `n` is the number of records from `a` with status >= 400 whose path
contains `/login`, `/wp-login.php`, `/admin` or `/auth`, and `n > 10`; so there is an entry
for `a` exactly when that number exceeds 10, and no address has two entries. -/
theorem C2_bruteForce (logs : List LogRecord) (h : (detectAnomalies logs).isSome = true) :
    (∀ a n, ({ ip := a, attempts := n } : BruteForce) ∈ (detectAttackPatterns logs).bruteForce ↔
      (n = authFailures logs a ∧ 10 < n)) ∧
    (∀ a, (∃ e ∈ (detectAttackPatterns logs).bruteForce, e.ip = a) ↔ 10 < authFailures logs a) ∧
    ((detectAttackPatterns logs).bruteForce.map fun e => e.ip).Nodup :=
  bruteForce_spec logs fun r hr _ => (detectAnomalies_isSome logs).mp h r hr

/-- C2 at fifteen, and at nine, failed requests to `/login` from one address: one entry with 15
attempts, and no entry. -/
theorem C2_bruteForce_witness :
    (detectAnomalies fifteenFailures).isSome = true ∧
    ((∀ a n, ({ ip := a, attempts := n } : BruteForce) ∈
        (detectAttackPatterns fifteenFailures).bruteForce ↔
      (n = authFailures fifteenFailures a ∧ 10 < n)) ∧
    (∀ a, (∃ e ∈ (detectAttackPatterns fifteenFailures).bruteForce, e.ip = a) ↔
      10 < authFailures fifteenFailures a) ∧
    ((detectAttackPatterns fifteenFailures).bruteForce.map fun e => e.ip).Nodup) ∧
    (detectAttackPatterns fifteenFailures).bruteForce =
      [{ ip := "203.0.113.9", attempts := 15 }] ∧
    (detectAnomalies nineFailures).isSome = true ∧
    (detectAttackPatterns nineFailures).bruteForce = [] :=
  ⟨by decide!, C2_bruteForce fifteenFailures (by decide!), by decide, by decide!, by decide⟩

/-- A sequence that never reaches `detectAttackPatterns`: on eleven failed requests to
`/login` whose address token is `constructor`, `detectAnomalies` throws. -/
theorem detectAnomalies_constructor : detectAnomalies constructorFailures = none := by
  decide!

end SIEM
